import Mathlib

/-!
# Verification of the gRPC-Web record decoder in `src/lib/test/grpc-test.ts`

This file gives a shallow embedding of the byte-level decoding pipeline of
`HeadscaleGrpcClient` (frame extraction, varint reading, field skipping, the
manual `ListUsersResponse` / `User` record decoder, and the ordered fallback
strategies), and proves or refutes the specification claims about it.

Conventions of the embedding:
* a byte buffer is a `List Nat` of byte values;
* JavaScript numbers that take part in 32-bit bitwise arithmetic
  (`value |= (byte & 0x7F) << shift`) are modelled by accumulating the
  unsigned 32-bit representative and interpreting it as a signed 32-bit
  integer (`toSigned32`) exactly where the JS engine would, so negative
  results of the `|`/`<<` pipeline are preserved;
* offsets inside the record decoders are `Int`, because the source can
  assign a negative or non-advancing offset (via a negative decoded length);
* the `while` loops of the record decoders are fuel-indexed: `none` means
  the loop was still running when the fuel ran out (for the inputs we prove
  things about, either the chosen fuel is shown sufficient, or divergence is
  shown for every fuel);
* `new Date().toISOString()` is modelled by a `now : String` parameter: the
  ambient wall clock at invocation time;
* `new TextDecoder().decode` (an external runtime API) is modelled by a
  standard non-strict UTF-8 decoder that substitutes U+FFFD on invalid
  sequences.
-/

set_option maxHeartbeats 1000000
set_option maxRecDepth 100000

/-- Byte buffers, as lists of byte values. -/
abbrev Bytes := List Nat

/-- `data[i]` for a possibly negative index: out-of-range reads give `0`,
matching how the only uses in the source (`undefined & 0x80`, `undefined & 0x7F`)
coerce an out-of-range read. -/
def byteAt (data : Bytes) (i : Int) : Nat :=
  if i < 0 then 0 else data.getD i.toNat 0

/-- Big-endian unsigned 32-bit read at `i` (`DataView.getUint32(i, false)`). -/
def beU32 (data : Bytes) (i : Nat) : Nat :=
  data.getD i 0 * 2 ^ 24 + data.getD (i + 1) 0 * 2 ^ 16 +
    data.getD (i + 2) 0 * 2 ^ 8 + data.getD (i + 3) 0

/-- Interpret the unsigned 32-bit representative `n` as a signed 32-bit
integer, the way JavaScript bitwise operators return their result. -/
def toSigned32 (n : Nat) : Int :=
  if n % 2 ^ 32 < 2 ^ 31 then (n % 2 ^ 32 : Nat) else (n % 2 ^ 32 : Nat) - 2 ^ 32

/-- `data.slice(start, stop)` for the in-bounds uses in the source. -/
def intSlice (data : Bytes) (start stop : Int) : Bytes :=
  (data.drop start.toNat).take (stop - start).toNat

/-- The accumulation loop of `readVarint`/`readVarintSafe`
(`grpc-test.ts:803-810`): up to 5 bytes are read while the continuation bit
is set, accumulating `value |= (byte & 0x7F) << shift` in 32-bit arithmetic.
Returns the raw unsigned 32-bit accumulator together with `bytesRead`. -/
def readVarintLoop (data : Bytes) (offset : Int) :
    Nat → Nat → Nat → Nat → Nat × Nat
  | 0, bytesRead, _, value => (value, bytesRead)
  | budget + 1, bytesRead, shift, value =>
    if offset + bytesRead < (data.length : Int) then
      let b := byteAt data (offset + bytesRead)
      let value' := value ||| ((b &&& 0x7F) <<< shift) % 2 ^ 32
      if b &&& 0x80 = 0 then (value', bytesRead + 1)
      else readVarintLoop data offset budget (bytesRead + 1) (shift + 7) value'
    else (value, bytesRead)

/-- `readVarintSafe(data, offset)` (`grpc-test.ts:793-819`): `null` iff the
offset is out of bounds (or no byte was read); otherwise the value decoded by
the 32-bit accumulation loop, as the signed number JavaScript would hold. -/
def readVarintSafe (data : Bytes) (offset : Int) : Option (Int × Nat) :=
  if offset < 0 ∨ (data.length : Int) ≤ offset then none
  else
    let r := readVarintLoop data offset 5 0 0 0
    if r.2 = 0 then none else some (toSigned32 r.1, r.2)

/-- The loop of `skipVarintSafe` for a nonnegative offset, structured over
the number `remaining = data.length - offset` of bytes left (zero exactly
when the `offset < data.length` loop condition fails). -/
def skipVarintGo (data : Bytes) : Nat → Nat → Nat
  | 0, offset => min (offset + 1) data.length
  | remaining + 1, offset =>
    if data.getD offset 0 &&& 0x80 ≠ 0 then skipVarintGo data remaining (offset + 1)
    else min (offset + 1) data.length

/-- Nonnegative-offset core of `skipVarintSafe` (`grpc-test.ts:892-897`):
advance while the continuation bit is set, then return `min (offset+1) len`. -/
def skipVarintNat (data : Bytes) (offset : Nat) : Nat :=
  skipVarintGo data (data.length - offset) offset

/-- `skipVarintSafe(data, offset)`; a negative offset reads `undefined`,
whose `& 0x80` is zero, so the loop exits at once. -/
def skipVarintSafe (data : Bytes) (offset : Int) : Int :=
  if offset < 0 then min (offset + 1) (data.length : Int)
  else (skipVarintNat data offset.toNat : Int)

/-- `skipFieldSafe(data, offset, wireType)` (`grpc-test.ts:855-887`). -/
def skipFieldSafe (data : Bytes) (offset : Int) (wireType : Nat) : Int :=
  let offset1 := offset + 1
  if (data.length : Int) ≤ offset1 then (data.length : Int)
  else
    match wireType with
    | 0 => skipVarintSafe data offset1
    | 1 => min (offset1 + 8) (data.length : Int)
    | 2 =>
      match readVarintSafe data offset1 with
      | none => (data.length : Int)
      | some (length, bytesRead) =>
        min (offset1 + bytesRead + length) (data.length : Int)
    | 5 => min (offset1 + 4) (data.length : Int)
    | _ => min (offset1 + 1) (data.length : Int)

/-- Unicode replacement character U+FFFD. -/
def replacementChar : Char := Char.ofNat 0xFFFD

/-- Modelled from the interface of `TextDecoder` (non-fatal mode): standard
UTF-8 decoding where an invalid sequence yields U+FFFD. Fuel is the number of
remaining bytes, which bounds the number of decoded characters. -/
def utf8DecodeLoop : Nat → Bytes → List Char
  | 0, _ => []
  | _, [] => []
  | fuel + 1, b :: rest =>
    if b < 0x80 then Char.ofNat b :: utf8DecodeLoop fuel rest
    else if 0xC2 ≤ b ∧ b < 0xE0 then
      match rest with
      | b2 :: rest2 =>
        if 0x80 ≤ b2 ∧ b2 < 0xC0 then
          Char.ofNat ((b - 0xC0) * 64 + (b2 - 0x80)) :: utf8DecodeLoop fuel rest2
        else replacementChar :: utf8DecodeLoop fuel rest
      | [] => [replacementChar]
    else if 0xE0 ≤ b ∧ b < 0xF0 then
      match rest with
      | b2 :: b3 :: rest3 =>
        if (0x80 ≤ b2 ∧ b2 < 0xC0) ∧ (0x80 ≤ b3 ∧ b3 < 0xC0) ∧
            0x800 ≤ (b - 0xE0) * 4096 + (b2 - 0x80) * 64 + (b3 - 0x80) ∧
            ¬(0xD800 ≤ (b - 0xE0) * 4096 + (b2 - 0x80) * 64 + (b3 - 0x80) ∧
              (b - 0xE0) * 4096 + (b2 - 0x80) * 64 + (b3 - 0x80) < 0xE000) then
          Char.ofNat ((b - 0xE0) * 4096 + (b2 - 0x80) * 64 + (b3 - 0x80)) ::
            utf8DecodeLoop fuel rest3
        else replacementChar :: utf8DecodeLoop fuel rest
      | _ => replacementChar :: utf8DecodeLoop fuel rest
    else if 0xF0 ≤ b ∧ b < 0xF5 then
      match rest with
      | b2 :: b3 :: b4 :: rest4 =>
        if (0x80 ≤ b2 ∧ b2 < 0xC0) ∧ (0x80 ≤ b3 ∧ b3 < 0xC0) ∧
            (0x80 ≤ b4 ∧ b4 < 0xC0) ∧
            0x10000 ≤ (b - 0xF0) * 262144 + (b2 - 0x80) * 4096 +
              (b3 - 0x80) * 64 + (b4 - 0x80) ∧
            (b - 0xF0) * 262144 + (b2 - 0x80) * 4096 + (b3 - 0x80) * 64 +
              (b4 - 0x80) < 0x110000 then
          Char.ofNat ((b - 0xF0) * 262144 + (b2 - 0x80) * 4096 +
            (b3 - 0x80) * 64 + (b4 - 0x80)) :: utf8DecodeLoop fuel rest4
        else replacementChar :: utf8DecodeLoop fuel rest
      | _ => replacementChar :: utf8DecodeLoop fuel rest
    else replacementChar :: utf8DecodeLoop fuel rest

/-- `new TextDecoder().decode(bs)`. -/
def decodeUtf8 (bs : Bytes) : String := ⟨utf8DecodeLoop bs.length bs⟩

/-- The user object built by `manualParseUser` (`grpc-test.ts:654-663`). -/
structure User where
  id : String
  name : String
  createdAt : String
  displayName : String
  email : String
  providerId : String
  provider : String
  profilePicUrl : String
deriving Repr, DecidableEq

/-- The initial user value of `manualParseUser`; `now` is the ambient clock
reading that `new Date().toISOString()` produces at invocation time. -/
def initUser (now : String) : User :=
  { id := "", name := "", createdAt := now, displayName := "", email := "",
    providerId := "", provider := "grpc", profilePicUrl := "" }

/-- One loop iteration either continues with a new state or exits with a
result. -/
inductive LoopStep (σ α : Type) where
  | next (s : σ)
  | done (a : α)
deriving Repr

/-- The `switch (fieldNumber)` statement of `manualParseUser`
(`grpc-test.ts:687-757`); `offset` has already been advanced past the tag
byte, whose value is `byte`. -/
def userSwitch (data : Bytes) (offset : Int) (byte : Nat) (user : User) :
    Int × User :=
  let wireType := byte &&& 0x07
  let fieldNumber := byte >>> 3
  if fieldNumber = 1 then
    if wireType = 0 then
      match readVarintSafe data (offset - 1) with
      | some vr => (skipVarintSafe data offset, { user with id := toString vr.1 })
      | none => (skipFieldSafe data (offset - 1) wireType, user)
    else (skipFieldSafe data (offset - 1) wireType, user)
  else if fieldNumber = 2 then
    if wireType = 2 then
      match readVarintSafe data offset with
      | some (nameLength, bytesRead) =>
        let offset := offset + bytesRead
        if offset + nameLength ≤ (data.length : Int) ∧ 0 < nameLength then
          (offset + nameLength,
            { user with name := decodeUtf8 (intSlice data offset (offset + nameLength)) })
        else (offset, user)
      | none => (skipFieldSafe data (offset - 1) wireType, user)
    else (skipFieldSafe data (offset - 1) wireType, user)
  else if fieldNumber = 4 then
    if wireType = 2 then
      match readVarintSafe data offset with
      | some (dnLength, bytesRead) =>
        let offset := offset + bytesRead
        if offset + dnLength ≤ (data.length : Int) ∧ 0 < dnLength then
          (offset + dnLength,
            { user with displayName := decodeUtf8 (intSlice data offset (offset + dnLength)) })
        else (offset, user)
      | none => (skipFieldSafe data (offset - 1) wireType, user)
    else (skipFieldSafe data (offset - 1) wireType, user)
  else
    let newOffset := skipFieldSafe data (offset - 1) wireType
    if newOffset ≤ offset then (offset, user)
    else (newOffset, user)

/-- One iteration of the `while` loop of `manualParseUser`
(`grpc-test.ts:668-760`), including the loop condition, the two guard
`break`s, the `switch` on the field number and the trailing bounds `break`. -/
def userStep (data : Bytes) (offset : Int) (user : User) :
    LoopStep (Int × User) User :=
  if ¬offset < (data.length : Int) - 1 then .done user
  else if offset < 0 ∨ (data.length : Int) ≤ offset then .done user
  else
    let byte := byteAt data offset
    let offset := offset + 1
    if (data.length : Int) < offset then .done user
    else
      let r : Int × User := userSwitch data offset byte user
      if (data.length : Int) ≤ r.1 then .done r.2 else .next r

/-- The fuel-indexed `while` loop of `manualParseUser`; `none` means the loop
was still running after `fuel` iterations. -/
def userLoop (data : Bytes) : Nat → Int → User → Option User
  | 0, _, _ => none
  | fuel + 1, offset, user =>
    match userStep data offset user with
    | .done u => some u
    | .next s => userLoop data fuel s.1 s.2

/-- `manualParseUser(userData)` (`grpc-test.ts:651-768`). -/
def manualParseUser (now : String) (fuel : Nat) (data : Bytes) : Option User :=
  userLoop data fuel 0 (initUser now)

/-- One iteration of the `while` loop of `manualParseListUsersResponse`
(`grpc-test.ts:576-639`).  The exit value is `none` when a nested
`manualParseUser` call diverges. -/
def listStep (now : String) (userFuel : Nat) (data : Bytes) (offset : Int)
    (users : List User) : LoopStep (Int × List User) (Option (List User)) :=
  if ¬offset < (data.length : Int) - 1 then .done (some users)
  else if offset < 0 ∨ (data.length : Int) ≤ offset then .done (some users)
  else
    let byte := byteAt data offset
    let wireType := byte &&& 0x07
    let fieldNumber := byte >>> 3
    if fieldNumber = 1 ∧ wireType = 2 then
      let offset := offset + 1
      if (data.length : Int) ≤ offset then .done (some users)
      else
        match readVarintSafe data offset with
        | none => .done (some users)
        | some (userLength, bytesRead) =>
          let offset := offset + bytesRead
          if userLength ≤ 0 ∨ (data.length : Int) < userLength then .done (some users)
          else if offset + userLength ≤ (data.length : Int) then
            match manualParseUser now userFuel (intSlice data offset (offset + userLength)) with
            | none => .done none
            | some user => .next (offset + userLength, users ++ [user])
          else .done (some users)
    else
      let newOffset := skipFieldSafe data offset wireType
      if newOffset ≤ offset ∨ (data.length : Int) ≤ newOffset then .done (some users)
      else .next (newOffset, users)

/-- The fuel-indexed `while` loop of `manualParseListUsersResponse`. -/
def listLoop (now : String) (userFuel : Nat) (data : Bytes) :
    Nat → Int → List User → Option (List User)
  | 0, _, _ => none
  | fuel + 1, offset, users =>
    match listStep now userFuel data offset users with
    | .done r => r
    | .next s => listLoop now userFuel data fuel s.1 s.2

/-- `manualParseListUsersResponse(messageData)` (`grpc-test.ts:567-646`),
with fuel `length + 2`, sufficient for every run whose offset advances on
each iteration (each iteration of the source loop consumes at least one
byte unless it has already entered the non-terminating regime). -/
def manualParseListUsersResponse (now : String) (data : Bytes) :
    Option (List User) :=
  listLoop now (data.length + 2) data (data.length + 2) 0 []

/-- The scan of `findGrpcTrailerStart` (`grpc-test.ts:1034-1056`): from `i`,
look for a byte `0x80` followed either by a plausible big-endian trailer
length or by the classic `0x80 00 00 00` pattern. -/
def trailerScan (data : Bytes) (searchStart : Nat) : Nat → Nat → Nat
  | 0, _ => max (data.length - 30) (searchStart + 10)
  | remaining + 1, i =>
    if data.getD i 0 = 0x80 then
      if i + 4 < data.length ∧ 0 < beU32 data (i + 1) ∧ beU32 data (i + 1) < 100 ∧
          i + 5 + beU32 data (i + 1) ≤ data.length then i
      else if i + 3 < data.length ∧ data.getD (i + 1) 0 = 0 ∧
          data.getD (i + 2) 0 = 0 ∧ data.getD (i + 3) 0 = 0 then i
      else trailerScan data searchStart remaining (i + 1)
    else trailerScan data searchStart remaining (i + 1)

/-- `findGrpcTrailerStart(data, searchStart)` (`grpc-test.ts:1029-1063`):
the scan counter `data.length - 4 - i` is zero exactly when the loop
condition `i < data.length - 4` fails. -/
def findGrpcTrailerStart (data : Bytes) (searchStart : Nat) : Nat :=
  trailerScan data searchStart (data.length - 4 - searchStart) searchStart

/-- `parseStandardGrpcWebFrame(frameBuffer)` (`grpc-test.ts:484-562`). -/
def parseStandardGrpcWebFrame (data : Bytes) : Bytes :=
  if data.length < 5 then []
  else
    let declaredMessageLength := beU32 data 1
    if declaredMessageLength = 0 then []
    else
      let declaredMessageEnd := 5 + declaredMessageLength
      let actualMessageEnd := findGrpcTrailerStart data 5
      let messageEnd :=
        if declaredMessageEnd ≤ data.length ∧ 5 < declaredMessageEnd ∧
            declaredMessageEnd < actualMessageEnd then declaredMessageEnd
        else if 5 < actualMessageEnd ∧ actualMessageEnd < data.length then
          actualMessageEnd
        else min declaredMessageEnd data.length
      let messageEnd :=
        if messageEnd ≤ 5 then min (5 + 50) data.length else messageEnd
      (data.drop 5).take (messageEnd - 5)

/-- The frame scan of `extractMessageFromComplexFrame`
(`grpc-test.ts:1165-1187`): walk `type ++ length ++ body` frames and return
the first nonempty message-frame body. -/
def complexScan (data : Bytes) : Nat → Nat → Option Bytes
  | 0, _ => none
  | fuel + 1, offset =>
    if offset < data.length - 5 then
      let frameType := data.getD offset 0
      let frameLength := beU32 data (offset + 1)
      if frameType = 0 ∧ offset + 5 < min (offset + 5 + frameLength) data.length then
        some ((data.drop (offset + 5)).take
          (min (offset + 5 + frameLength) data.length - (offset + 5)))
      else complexScan data fuel (offset + 5 + frameLength)
    else none

/-- `looksLikeValidProtobuf(data)` (`grpc-test.ts:1223-1235`). -/
def looksLikeValidProtobuf (data : Bytes) : Bool :=
  if data.length < 2 then false
  else
    let firstByte := data.getD 0 0
    let fieldNumber := firstByte >>> 3
    let wireType := firstByte &&& 0x07
    decide (0 < fieldNumber ∧ fieldNumber < 19 ∧
      (wireType = 0 ∨ wireType = 1 ∨ wireType = 2 ∨ wireType = 5))

/-- The marker scan of `findProtobufInData` (`grpc-test.ts:1203-1214`). -/
def protoMarkerScan (data : Bytes) : Nat → Nat → Option Bytes
  | 0, _ => none
  | remaining + 1, i =>
    if (data.getD i 0 = 0x0A ∨ data.getD i 0 = 0x08 ∨ data.getD i 0 = 0x12 ∨
        data.getD i 0 = 0x1A ∨ data.getD i 0 = 0x22 ∨ data.getD i 0 = 0x2A) ∧
        looksLikeValidProtobuf (data.drop i) then some (data.drop i)
    else protoMarkerScan data remaining (i + 1)

/-- `findProtobufInData(data)` (`grpc-test.ts:1197-1218`): the scan counter
`min 32 (data.length - 4)` is the number of loop iterations. -/
def findProtobufInData (data : Bytes) : Bytes :=
  match protoMarkerScan data (min 32 (data.length - 4)) 0 with
  | some c => c
  | none => if 5 < data.length then data.drop 5 else data

/-- `extractMessageFromComplexFrame(frameBuffer)` (`grpc-test.ts:1157-1192`):
the scanned offset grows by at least 5 per iteration, so `data.length`
iterations of fuel always outlast the `offset < data.length - 5` loop
condition. -/
def extractMessageFromComplexFrame (data : Bytes) : Bytes :=
  match complexScan data (data.length + 1) 0 with
  | some msg => msg
  | none => findProtobufInData data

/-- `parseGrpcWebFrame(frameBuffer)` (`grpc-test.ts:394-477`).  The
`new Uint8Array(frameBuffer, 5, 88)` of the `0x58` branch throws a
`RangeError` on buffers shorter than 93 bytes; the surrounding `catch`
then falls back to `extractMessageFromComplexFrame`, which is embedded as
the explicit length test. -/
def parseGrpcWebFrame (data : Bytes) : Bytes :=
  if data.length = 0 then []
  else if data.length < 5 then data
  else if 128 ≤ data.length then parseStandardGrpcWebFrame data
  else
    let compressionFlag := data.getD 0 0
    let messageLength := beU32 data 1
    if compressionFlag ≠ 0 ∧ compressionFlag ≠ 1 then
      extractMessageFromComplexFrame data
    else if messageLength = 0x58 then
      if 93 ≤ data.length then (data.drop 5).take 88
      else extractMessageFromComplexFrame data
    else if data.length < 5 + messageLength then
      if 0 < data.length - 5 then (data.drop 5).take (data.length - 5) else []
    else
      let actualMessageLength := min messageLength (data.length - 5)
      if actualMessageLength = 0 then []
      else (data.drop 5).take actualMessageLength

/-- The in-repository decode pipeline: gRPC-Web frame extraction followed by
the manual record decoder (the external `protobuf.js` decode attempt of
`testConnection` is an out-of-scope collaborator). -/
def decodePipeline (now : String) (data : Bytes) : Option (List User) :=
  manualParseListUsersResponse now (parseGrpcWebFrame data)

/-- Substring test, as `String.prototype.includes`. -/
def containsSub : List Char → List Char → Bool
  | [], pat => pat.isEmpty
  | c :: rest, pat => pat.isPrefixOf (c :: rest) || containsSub rest pat

/-- `text.includes(pat)`. -/
def strContains (s pat : String) : Bool := containsSub s.data pat.data

/-- Outcome of one `methods[i].parse()` call of
`tryAlternativeParsingMethods`: the parse threw (`thrown`), entered the
non-terminating regime (`diverged`), or returned a message whose `users`
field is `ok`. -/
inductive MethodOutcome where
  | thrown
  | diverged
  | ok (users : List User)

/-- What `tryAlternativeParsingMethods` returns, with the record count and
method name that the source interpolates into its message string. -/
structure TryResult where
  success : Bool
  found : Nat
  method : String
deriving Repr, DecidableEq

/-- Wrap a fuel-indexed parse result as a method outcome. -/
def wrapParse : Option (List User) → MethodOutcome
  | none => .diverged
  | some us => .ok us

/-- The parse methods of `tryAlternativeParsingMethods`
(`grpc-test.ts:1445-1576`), in source order.  Methods 5 and 6 (`gRPC error
response parsing`, `HTTP error response check`) throw on every path. -/
def methodParse (now : String) (data : Bytes) : Nat → MethodOutcome
  | 0 =>
    if data.length = 0 then .thrown
    else wrapParse (manualParseListUsersResponse now data)
  | 1 =>
    if data.length ≤ 5 then .thrown
    else wrapParse (manualParseListUsersResponse now (data.drop 5))
  | 2 =>
    if data.length ≤ 8 then .thrown
    else wrapParse (manualParseListUsersResponse now (data.drop 8))
  | 3 =>
    if data.length ≤ 5 then .thrown
    else if data.length - 5 = 0 then .thrown
    else wrapParse (manualParseListUsersResponse now (data.drop 5))
  | 4 =>
    if data.length < 1 then .thrown
    else
      match [0, 1, 2, 3, 4, 5, 8, 10, 12, 16].find? (· < data.length) with
      | some o => wrapParse (manualParseListUsersResponse now (data.drop o))
      | none => .thrown
  | _ => .thrown

/-- The method names interpolated into the success message. -/
def methodName : Nat → String
  | 0 => "Direct manual parsing (no frame wrapper)"
  | 1 => "Skip first 5 bytes manual parsing"
  | 2 => "Skip first 8 bytes manual parsing"
  | 3 => "Use available data length manual parsing"
  | 4 => "Safe boundary check manual parsing"
  | _ => ""

/-- The `for (const method of methods)` loop (`grpc-test.ts:1578-1601`):
the first method whose `parse()` does not throw is reported as success with
however many users it found. -/
def methodsLoop (now : String) (data : Bytes) : List Nat → Option TryResult
  | [] => some { success := false, found := 0, method := "" }
  | i :: rest =>
    match methodParse now data i with
    | .thrown => methodsLoop now data rest
    | .diverged => none
    | .ok us => some { success := true, found := us.length, method := methodName i }

/-- `tryAlternativeParsingMethods(responseData, ...)`
(`grpc-test.ts:1401-1609`). -/
def tryAlternativeParsingMethods (now : String) (data : Bytes) :
    Option TryResult :=
  if 128 ≤ data.length then
    match manualParseListUsersResponse now (parseStandardGrpcWebFrame data) with
    | none => none
    | some us => some { success := true, found := us.length, method := "manual parser" }
  else
    let text := decodeUtf8 (data.take 200)
    if strContains text "grpc-status" || strContains text "grpc-message" then
      some { success := false, found := 0, method := "" }
    else if strContains text "HTTP/" || strContains text "<html" ||
        strContains text "error" then
      some { success := false, found := 0, method := "" }
    else methodsLoop now data [0, 1, 2, 3, 4, 5, 6]

/-- Erase the clock-derived field of a decoded user. -/
def eraseCreatedAt (u : User) : User := { u with createdAt := "" }

/-- Base-128 digit expansion with explicit fuel; `fuel > n` always outlasts
the division chain. -/
def encVarintGo : Nat → Nat → List Nat
  | 0, n => [n]
  | fuel + 1, n => if n < 128 then [n] else (n % 128 + 128) :: encVarintGo fuel (n / 128)

/-- Minimal varint encoding of `n` (7 data bits per byte, continuation bit
on every byte but the last). -/
def encVarint (n : Nat) : List Nat := encVarintGo (n + 1) n

/-- A correctly encoded protobuf field payload, by wire type. -/
inductive PbField where
  | vint (pre : List Nat) (last : Nat)
  | fix64 (payload : List Nat)
  | lenDelim (content : List Nat)
  | fix32 (payload : List Nat)
deriving Repr, DecidableEq

/-- The wire type a field payload is encoded with. -/
def PbField.wire : PbField → Nat
  | .vint _ _ => 0
  | .fix64 _ => 1
  | .lenDelim _ => 2
  | .fix32 _ => 5

/-- The encoded bytes of the field payload (after its tag byte). -/
def PbField.fieldBytes : PbField → List Nat
  | .vint pre last => pre ++ [last]
  | .fix64 p => p
  | .lenDelim c => encVarint c.length ++ c
  | .fix32 p => p

/-- Well-formedness of a field payload: varint continuation structure,
fixed widths, and a length-delimited size below `2^28` so its minimal
length varint is at most 4 bytes. -/
def PbField.wfB : PbField → Bool
  | .vint pre last => pre.all (fun b => decide (128 ≤ b ∧ b < 256)) && decide (last < 128)
  | .fix64 p => decide (p.length = 8) && p.all (fun b => decide (b < 256))
  | .lenDelim c => decide (c.length < 2 ^ 28) && c.all (fun b => decide (b < 256))
  | .fix32 p => decide (p.length = 4) && p.all (fun b => decide (b < 256))

/-- A correctly encoded sub-message body: a sequence of tagged fields with
single-byte tags (field numbers 1..15). -/
def BodyWf (body : List (Nat × PbField)) : Bool :=
  body.all (fun p => decide (1 ≤ p.1 ∧ p.1 ≤ 15) && p.2.wfB)

/-- Encoding of one tagged field: `(fieldNumber << 3) | wireType` followed
by the field payload bytes. -/
def fieldEnc (p : Nat × PbField) : Bytes :=
  (p.1 * 8 + p.2.wire) :: p.2.fieldBytes

/-- Encoding of a sub-message body. -/
def bodyEnc (body : List (Nat × PbField)) : Bytes :=
  (body.map fieldEnc).flatten

/-- Encoding of one top-level record: tag `0x0A` (field 1,
length-delimited), the body length as a varint, then the body. -/
def encRecordB (body : List (Nat × PbField)) : Bytes :=
  0x0A :: (encVarint (bodyEnc body).length ++ bodyEnc body)

/-- A payload of `N` encoded records followed by one extra byte `c`
(in the claims: a corruption byte whose low 3 bits are 7). -/
def encListPayload (records : List (List (Nat × PbField))) (c : Nat) : Bytes :=
  (records.map encRecordB).flatten ++ [c]

/-- The boundary reconciliation cascade of `parseStandardGrpcWebFrame`
(`grpc-test.ts:528-547`), as a function of buffer length, declared message
end, and located trailer start. -/
def reconcileBoundary (len declEnd trailEnd : Nat) : Nat :=
  let e :=
    if declEnd ≤ len ∧ 5 < declEnd ∧ declEnd < trailEnd then declEnd
    else if 5 < trailEnd ∧ trailEnd < len then trailEnd
    else min declEnd len
  if e ≤ 5 then min 55 len else e

/-- Scenario A: header `[0,0,0,0,0x16]` (declared length 22), a payload of
22 bytes holding one encoded record `{id:1, name:"ana"}` (field 1 varint
`0x08 0x01`, field 2 `0x12 0x03 "ana"`) padded by one unknown top-level
field 15, and a well-formed trailer frame `0x80 len "grpc-status: 0"`. -/
def bufScenarioA : Bytes :=
  [0x00, 0x00, 0x00, 0x00, 0x16] ++
  ([0x0A, 0x07, 0x08, 0x01, 0x12, 0x03, 0x61, 0x6E, 0x61] ++
   [0x7A, 0x0B, 0x78, 0x78, 0x78, 0x78, 0x78, 0x78, 0x78, 0x78, 0x78, 0x78, 0x78]) ++
  [0x80, 0x00, 0x00, 0x00, 0x0F, 0x67, 0x72, 0x70, 0x63, 0x2D, 0x73, 0x74,
   0x61, 0x74, 0x75, 0x73, 0x3A, 0x20, 0x30, 0x0D]

/-- A user sub-message whose field 1 (identifier, varint) encodes the
value 1: bytes `0x08 0x01`. -/
def idOneBody : Bytes := [0x08, 0x01]

/-- A user sub-message carrying only field 3 (creation timestamp), as the
nested message `{seconds: 1, nanos: 2}`: `0x1A 0x04 (0x08 0x01 0x10 0x02)`. -/
def timestampBody : Bytes := [0x1A, 0x04, 0x08, 0x01, 0x10, 0x02]

/-- A 4-byte buffer that is a complete encoded record: top-level field 1,
length 2, containing the user sub-message `0x08 0x01` (`{id: 1}`). -/
def bufFour : Bytes := [0x0A, 0x02, 0x08, 0x01]

/-- A varint whose continuation bit is still set after 5 bytes. -/
def truncatedVarint : Bytes := [0x80, 0x80, 0x80, 0x80, 0x80, 0x00]

/-- A user sub-message on which the decoder stalls: field 1 with wire type
2 whose 5-byte length varint decodes, in 32-bit signed arithmetic, to `-6`,
so `skipFieldSafe` returns the offset it started from. -/
def stallBody : Bytes := [0x0A, 0xFA, 0xFF, 0xFF, 0xFF, 0x7F, 0x00, 0x00]

/-- A 128-byte response whose trailer pattern `0x80 00 00 00` sits directly
at the payload start (offset 5) while the header declares length 50. -/
def bufTrailerAtStart : Bytes :=
  [0x00, 0x00, 0x00, 0x00, 0x32] ++ ([0x80, 0x00, 0x00, 0x00] ++ List.replicate 119 0)

/-- Two well-formed non-empty record bodies: `{id: 1, name: "ana"}` and
`{id: 2}`. -/
def witnessRecords : List (List (Nat × PbField)) :=
  [[(1, .vint [] 1), (2, .lenDelim [0x61, 0x6E, 0x61])], [(1, .vint [] 2)]]

/-- `l` is the suffix of `data` starting at offset `o`. -/
def SuffixAt (data : Bytes) (o : Nat) (l : Bytes) : Prop :=
  data.drop o = l ∧ data.length = o + l.length

lemma suffixAt_le {data : Bytes} {o : Nat} {l : Bytes} (h : SuffixAt data o l) :
    o ≤ data.length := by
  have := h.2; omega

lemma suffixAt_lt {data : Bytes} {o : Nat} {b : Nat} {l : Bytes}
    (h : SuffixAt data o (b :: l)) : o < data.length := by
  have := h.2; simp at this; omega

lemma suffixAt_getD {data : Bytes} {o : Nat} {b : Nat} {l : Bytes}
    (h : SuffixAt data o (b :: l)) : data.getD o 0 = b := by
  have h1 : data[o]? = some b := by
    have : (data.drop o)[0]? = some b := by rw [h.1]; simp
    rwa [List.getElem?_drop, Nat.add_zero] at this
  simp [List.getD_eq_getElem?_getD, h1]

lemma suffixAt_tail {data : Bytes} {o : Nat} {b : Nat} {l : Bytes}
    (h : SuffixAt data o (b :: l)) : SuffixAt data (o + 1) l := by
  constructor
  · have : data.drop (o + 1) = (data.drop o).drop 1 := by
      rw [List.drop_drop]
    rw [this, h.1]; rfl
  · have := h.2; simp at this ⊢; omega

lemma suffixAt_append {data : Bytes} {o : Nat} {l1 l2 : Bytes}
    (h : SuffixAt data o (l1 ++ l2)) : SuffixAt data (o + l1.length) l2 := by
  constructor
  · have : data.drop (o + l1.length) = (data.drop o).drop l1.length := by
      rw [List.drop_drop, Nat.add_comm]
    rw [this, h.1, List.drop_left]
  · have := h.2; simp at this ⊢; omega

lemma byteAt_suffixAt {data : Bytes} {o : Nat} {b : Nat} {l : Bytes}
    (h : SuffixAt data o (b :: l)) : byteAt data (o : Int) = b := by
  rw [byteAt, if_neg (by omega)]
  rw [Int.toNat_natCast]
  exact suffixAt_getD h

lemma intSlice_suffixAt {data : Bytes} {o : Nat} {l1 l2 : Bytes}
    (h : SuffixAt data o (l1 ++ l2)) :
    intSlice data (o : Int) ((o : Int) + (l1.length : Int)) = l1 := by
  rw [intSlice]
  have h1 : ((o : Int) + (l1.length : Int) - (o : Int)).toNat = l1.length := by omega
  have h2 : ((o : Int)).toNat = o := Int.toNat_natCast o
  rw [h1, h2, h.1, List.take_left]

/-- Tag byte decomposition: the low 3 bits. -/
lemma tag_and7 (fn w : Nat) (hw : w < 8) : (fn * 8 + w) &&& 7 = w := by
  have : (7 : Nat) = 2 ^ 3 - 1 := by norm_num
  rw [this, Nat.and_pow_two_sub_one_eq_mod]
  omega

/-- Tag byte decomposition: the field number. -/
lemma tag_shr3 (fn w : Nat) (hw : w < 8) : (fn * 8 + w) >>> 3 = fn := by
  rw [Nat.shiftRight_eq_div_pow]
  norm_num
  omega

lemma and127_eq_mod (b : Nat) : b &&& 127 = b % 128 := by
  have : (127 : Nat) = 2 ^ 7 - 1 := by norm_num
  rw [this, Nat.and_pow_two_sub_one_eq_mod]

lemma and128_of_lt {b : Nat} (h : b < 128) : b &&& 128 = 0 := by
  have h1 : (128 : Nat) = 2 ^ 7 := by norm_num
  rw [h1, Nat.and_two_pow]
  rw [Nat.testBit_lt_two_pow (by norm_num at h ⊢; omega)]
  rfl

lemma and128_of_ge {b : Nat} (h1 : 128 ≤ b) (h2 : b < 256) : b &&& 128 = 128 := by
  have h3 : (128 : Nat) = 2 ^ 7 := by norm_num
  rw [h3, Nat.and_two_pow]
  have : b.testBit 7 = true := by
    rw [Nat.testBit_to_div_mod]
    have h4 : b / 2 ^ 7 = 1 := by
      have h5 : (2 : Nat) ^ 7 = 128 := by norm_num
      rw [h5]; omega
    rw [h4]
    rfl
  simp [this]

lemma toSigned32_of_lt {n : Nat} (h : n < 2 ^ 31) : toSigned32 n = (n : Int) := by
  rw [toSigned32]
  have h1 : n % 2 ^ 32 = n := Nat.mod_eq_of_lt (by omega)
  rw [if_pos (by omega), h1]

lemma lor_shift_eq_add {value c shift : Nat} (hv : value < 2 ^ shift)
    (hc : c * 2 ^ shift < 2 ^ 32) :
    value ||| ((c <<< shift) % 2 ^ 32) = value + c * 2 ^ shift := by
  rw [Nat.shiftLeft_eq, Nat.mod_eq_of_lt hc, Nat.lor_comm, mul_comm c (2 ^ shift),
    ← Nat.mul_add_lt_is_or hv c]
  ring

lemma encVarintGo_fuel (n : Nat) :
    ∀ fuel, n < fuel → encVarintGo fuel n = encVarintGo (n + 1) n := by
  induction n using Nat.strong_induction_on with
  | _ n ih =>
    intro fuel hfuel
    obtain ⟨f, rfl⟩ : ∃ f, fuel = f + 1 := ⟨fuel - 1, by omega⟩
    by_cases h128 : n < 128
    · simp only [encVarintGo, if_pos h128]
    · simp only [encVarintGo, if_neg h128]
      have hlt : n / 128 < n := Nat.div_lt_self (by omega) (by omega)
      rw [ih (n / 128) hlt f (by omega), ih (n / 128) hlt n hlt]

lemma encVarint_eq (n : Nat) :
    encVarint n = if n < 128 then [n] else (n % 128 + 128) :: encVarint (n / 128) := by
  rw [encVarint]
  by_cases h128 : n < 128
  · simp only [encVarintGo, if_pos h128]
  · simp only [encVarintGo, if_neg h128]
    rw [encVarint, encVarintGo_fuel (n / 128) n
      (by have := Nat.div_lt_self (show 0 < n by omega) (show 1 < 128 by omega); omega)]

lemma encVarint_length_pos (n : Nat) : 0 < (encVarint n).length := by
  rw [encVarint_eq]
  split <;> simp

lemma encVarint_length_le (k : Nat) :
    ∀ n : Nat, n < 2 ^ (7 * k) → 1 ≤ k → (encVarint n).length ≤ k := by
  induction k with
  | zero => omega
  | succ k ih =>
    intro n hn _
    by_cases h128 : n < 128
    · rw [encVarint_eq, if_pos h128]; simp
    · rw [encVarint_eq, if_neg h128]
      have hk : 1 ≤ k := by
        by_contra hk0
        have : k = 0 := by omega
        subst this
        norm_num at hn
        omega
      have hdiv : n / 128 < 2 ^ (7 * k) := by
        have h7 : (2 : Nat) ^ (7 * (k + 1)) = 2 ^ (7 * k) * 128 := by
          rw [Nat.mul_succ, pow_add]; norm_num
      
        rw [Nat.div_lt_iff_lt_mul (by norm_num)]
        omega
      have := ih (n / 128) hdiv hk
      simp
      omega

lemma readVarintLoop_encVarint :
    ∀ (n : Nat) (data : Bytes) (o br shift value budget : Nat) (rest : Bytes),
      SuffixAt data (o + br) (encVarint n ++ rest) →
      (encVarint n).length ≤ budget →
      value < 2 ^ shift →
      value + n * 2 ^ shift < 2 ^ 31 →
      readVarintLoop data (o : Int) budget br shift value =
        (value + n * 2 ^ shift, br + (encVarint n).length) := by
  intro n
  induction n using Nat.strong_induction_on with
  | _ n ih =>
    intro data o br shift value budget rest hsuf hbud hv hsm
    obtain ⟨B, rfl⟩ : ∃ B, budget = B + 1 := by
      have := encVarint_length_pos n
      exact ⟨budget - 1, by omega⟩
    have hnsm : n * 2 ^ shift < 2 ^ 31 := by omega
    by_cases h128 : n < 128
    · rw [encVarint_eq, if_pos h128] at hsuf ⊢
      simp only [List.singleton_append] at hsuf
      have hlt : o + br < data.length := suffixAt_lt hsuf
      simp only [readVarintLoop]
      rw [if_pos (by omega)]
      have hcast : (o : Int) + (br : Nat) = ((o + br : Nat) : Int) := by push_cast; ring
      rw [hcast, byteAt_suffixAt hsuf]
      rw [and127_eq_mod, Nat.mod_eq_of_lt h128]
      have hc32 : n * 2 ^ shift < 2 ^ 32 := by
        have h32 : (2 : Nat) ^ 31 < 2 ^ 32 := by norm_num
        omega
      rw [and128_of_lt h128, if_pos rfl, lor_shift_eq_add hv hc32]
      simp
    · rw [encVarint_eq, if_neg h128] at hsuf hbud ⊢
      simp only [List.cons_append] at hsuf
      have hlt : o + br < data.length := suffixAt_lt hsuf
      simp only [readVarintLoop]
      rw [if_pos (by omega)]
      have hcast : (o : Int) + (br : Nat) = ((o + br : Nat) : Int) := by push_cast; ring
      rw [hcast, byteAt_suffixAt hsuf]
      rw [and127_eq_mod]
      have hm : (n % 128 + 128) % 128 = n % 128 := by omega
      rw [hm]
      have hmle : n % 128 * 2 ^ shift ≤ n * 2 ^ shift :=
        Nat.mul_le_mul_right _ (Nat.mod_le n 128)
      have hc32 : n % 128 * 2 ^ shift < 2 ^ 32 := by
        have h32 : (2 : Nat) ^ 31 < 2 ^ 32 := by norm_num
        omega
      rw [lor_shift_eq_add hv hc32]
      rw [and128_of_ge (by omega) (by omega), if_neg (by omega)]
      have e7 : (2 : Nat) ^ (shift + 7) = 2 ^ shift * 128 := by
        rw [pow_add]; norm_num
      have hv' : value + n % 128 * 2 ^ shift < 2 ^ (shift + 7) := by
        have h127 : n % 128 ≤ 127 := by omega
        have : n % 128 * 2 ^ shift ≤ 127 * 2 ^ shift :=
          Nat.mul_le_mul_right _ h127
        rw [e7]
        have hsp : 0 < (2 : Nat) ^ shift := Nat.pos_pow_of_pos shift (by norm_num)
        nlinarith
      have hmd : 128 * (n / 128) + n % 128 = n := Nat.div_add_mod n 128
      have hval : value + n % 128 * 2 ^ shift + n / 128 * 2 ^ (shift + 7) =
          value + n * 2 ^ shift := by
        rw [e7]
        calc value + n % 128 * 2 ^ shift + n / 128 * (2 ^ shift * 128)
            = value + (128 * (n / 128) + n % 128) * 2 ^ shift := by ring
          _ = value + n * 2 ^ shift := by rw [hmd]
      have hsuf' : SuffixAt data (o + (br + 1)) (encVarint (n / 128) ++ rest) := by
        have := suffixAt_tail hsuf
        rwa [Nat.add_assoc] at this
      have hbud' : (encVarint (n / 128)).length ≤ B := by
        simp at hbud
        omega
      have hsm' : value + n % 128 * 2 ^ shift + n / 128 * 2 ^ (shift + 7) < 2 ^ 31 := by
        rw [hval]; exact hsm
      rw [ih (n / 128) (Nat.div_lt_self (by omega) (by omega)) data o (br + 1)
        (shift + 7) (value + n % 128 * 2 ^ shift) B rest hsuf' hbud' hv' hsm']
      rw [hval]
      simp
      omega

lemma readVarintSafe_encVarint {data : Bytes} {o : Nat} {n : Nat} {rest : Bytes}
    (hsuf : SuffixAt data o (encVarint n ++ rest)) (hn : n < 2 ^ 31) :
    readVarintSafe data (o : Int) = some ((n : Int), (encVarint n).length) := by
  have hpos := encVarint_length_pos n
  have hlt : o < data.length := by
    have := hsuf.2
    simp at this
    omega
  rw [readVarintSafe, if_neg (by omega)]
  have hsuf0 : SuffixAt data (o + 0) (encVarint n ++ rest) := by
    simpa using hsuf
  have hlen5 : (encVarint n).length ≤ 5 := by
    apply encVarint_length_le 5 n _ (by norm_num)
    calc n < 2 ^ 31 := hn
      _ ≤ 2 ^ (7 * 5) := by norm_num
  have := readVarintLoop_encVarint n data o 0 0 0 5 rest hsuf0 hlen5 (by norm_num)
    (by simpa using hn)
  simp only [this]
  rw [if_neg (by omega)]
  simp [toSigned32_of_lt (by simpa using hn)]

lemma skipVarintNat_consume :
    ∀ (pre : List Nat) (last : Nat) (rest : Bytes) (data : Bytes) (o : Nat),
      (∀ b ∈ pre, 128 ≤ b ∧ b < 256) → last < 128 →
      SuffixAt data o (pre ++ last :: rest) →
      skipVarintNat data o = o + pre.length + 1 := by
  intro pre
  induction pre with
  | nil =>
    intro last rest data o _ hlast hsuf
    simp only [List.nil_append] at hsuf
    have hlt : o < data.length := suffixAt_lt hsuf
    have hle : o + 1 ≤ data.length := by
      have := hsuf.2; simp at this; omega
    obtain ⟨k, hk⟩ : ∃ k, data.length - o = k + 1 := ⟨data.length - o - 1, by omega⟩
    rw [skipVarintNat, hk]
    simp only [skipVarintGo]
    rw [suffixAt_getD hsuf, and128_of_lt hlast]
    simp [Nat.min_eq_left hle]
  | cons b pre ih =>
    intro last rest data o hpre hlast hsuf
    simp only [List.cons_append] at hsuf
    have hlt : o < data.length := suffixAt_lt hsuf
    obtain ⟨k, hk⟩ : ∃ k, data.length - o = k + 1 := ⟨data.length - o - 1, by omega⟩
    rw [skipVarintNat, hk]
    simp only [skipVarintGo]
    obtain ⟨hb1, hb2⟩ := hpre b (by simp)
    rw [suffixAt_getD hsuf, and128_of_ge hb1 hb2, if_pos (by omega)]
    have hk' : k = data.length - (o + 1) := by omega
    rw [hk', ← skipVarintNat]
    have := ih last rest data (o + 1) (fun x hx => hpre x (by simp [hx]))
      hlast (suffixAt_tail hsuf)
    rw [this]
    simp
    omega

lemma skipVarintSafe_consume {pre : List Nat} {last : Nat} {rest data : Bytes} {o : Nat}
    (hpre : ∀ b ∈ pre, 128 ≤ b ∧ b < 256) (hlast : last < 128)
    (hsuf : SuffixAt data o (pre ++ last :: rest)) :
    skipVarintSafe data (o : Int) = ((o + pre.length + 1 : Nat) : Int) := by
  rw [skipVarintSafe, if_neg (by omega), Int.toNat_natCast,
    skipVarintNat_consume pre last rest data o hpre hlast hsuf]

lemma skipFieldSafe_consume {data : Bytes} {o : Nat} {fn : Nat} {f : PbField}
    {rest : Bytes} (hwf : f.wfB = true)
    (hsuf : SuffixAt data o (fieldEnc (fn, f) ++ rest)) :
    skipFieldSafe data (o : Int) f.wire = ((o + 1 + f.fieldBytes.length : Nat) : Int) := by
  rw [fieldEnc] at hsuf
  simp only [List.cons_append] at hsuf
  have hsuf' : SuffixAt data (o + 1) (f.fieldBytes ++ rest) := suffixAt_tail hsuf
  have hlen : data.length = o + 1 + f.fieldBytes.length + rest.length := by
    have := hsuf'.2; simp at this; omega
  cases f with
  | vint pre last =>
    simp only [PbField.wfB, List.all_eq_true, Bool.and_eq_true, decide_eq_true_eq] at hwf
    obtain ⟨hpre, hlast⟩ := hwf
    simp only [PbField.fieldBytes] at hsuf' hlen ⊢
    have hfb : 0 < pre.length + 1 := by omega
    simp only [skipFieldSafe, PbField.wire]
    rw [if_neg (by simp at hlen; omega)]
    have hcast : (o : Int) + 1 = ((o + 1 : Nat) : Int) := by push_cast; ring
    rw [hcast]
    rw [List.append_assoc] at hsuf'
    simp only [List.singleton_append] at hsuf'
    rw [skipVarintSafe_consume (fun b hb => hpre b hb) hlast hsuf']
    simp
    omega
  | fix64 p =>
    simp only [PbField.wfB, List.all_eq_true, Bool.and_eq_true, decide_eq_true_eq] at hwf
    obtain ⟨hp8, _⟩ := hwf
    simp only [PbField.fieldBytes] at hlen ⊢
    simp only [skipFieldSafe, PbField.wire]
    rw [if_neg (by omega)]
    rw [min_eq_left (by omega)]
    push_cast
    omega
  | lenDelim c =>
    simp only [PbField.wfB, List.all_eq_true, Bool.and_eq_true, decide_eq_true_eq] at hwf
    obtain ⟨hc, _⟩ := hwf
    have hpos := encVarint_length_pos c.length
    simp only [PbField.fieldBytes, List.length_append] at hsuf' hlen ⊢
    simp only [skipFieldSafe, PbField.wire]
    rw [if_neg (by omega)]
    have hcast : (o : Int) + 1 = ((o + 1 : Nat) : Int) := by push_cast; ring
    rw [List.append_assoc] at hsuf'
    rw [hcast]
    simp only [readVarintSafe_encVarint hsuf' (by
      calc c.length < 2 ^ 28 := hc
        _ < 2 ^ 31 := by norm_num)]
    rw [min_eq_left (by push_cast; omega)]
    push_cast
    ring
  | fix32 p =>
    simp only [PbField.wfB, List.all_eq_true, Bool.and_eq_true, decide_eq_true_eq] at hwf
    obtain ⟨hp4, _⟩ := hwf
    simp only [PbField.fieldBytes] at hlen ⊢
    simp only [skipFieldSafe, PbField.wire]
    rw [if_neg (by omega)]
    rw [min_eq_left (by omega)]
    push_cast
    omega

lemma PbField.wire_lt8 (f : PbField) : f.wire < 8 := by
  cases f <;> simp [PbField.wire]

lemma PbField.fieldBytes_pos {f : PbField} (hwf : f.wfB = true) :
    0 < f.fieldBytes.length := by
  cases f with
  | vint pre last => simp [PbField.fieldBytes]
  | fix64 p =>
    simp only [PbField.wfB, Bool.and_eq_true, decide_eq_true_eq] at hwf
    simp [PbField.fieldBytes, hwf.1]
  | lenDelim c =>
    have := encVarint_length_pos c.length
    simp [PbField.fieldBytes]
    omega
  | fix32 p =>
    simp only [PbField.wfB, Bool.and_eq_true, decide_eq_true_eq] at hwf
    simp [PbField.fieldBytes, hwf.1]

lemma userStep_consume {data : Bytes} {o : Nat} {fn : Nat} {f : PbField}
    {rest : Bytes} (user : User) (hfn : 1 ≤ fn) (hwf : f.wfB = true)
    (hsuf : SuffixAt data o (fieldEnc (fn, f) ++ rest)) :
    ∃ u', userStep data (o : Int) user =
      (if (data.length : Int) ≤ ((o + 1 + f.fieldBytes.length : Nat) : Int)
       then LoopStep.done u' else .next (((o + 1 + f.fieldBytes.length : Nat) : Int), u')) := by
  have hfb := PbField.fieldBytes_pos hwf
  rw [fieldEnc] at hsuf
  simp only [List.cons_append] at hsuf
  have hlen : data.length = o + 1 + f.fieldBytes.length + rest.length := by
    have := hsuf.2; simp at this; omega
  have hskip : skipFieldSafe data (o : Int) f.wire =
      ((o + 1 + f.fieldBytes.length : Nat) : Int) :=
    skipFieldSafe_consume hwf (by rw [fieldEnc]; simpa using hsuf)
  have hsuf2 : SuffixAt data (o + 1) (f.fieldBytes ++ rest) := suffixAt_tail hsuf
  have hom : ((o : Int) + 1 - 1) = (o : Int) := by ring
  by_cases hfn1 : fn = 1
  · subst hfn1
    cases f with
    | vint pre last =>
      simp only [PbField.wfB, List.all_eq_true, Bool.and_eq_true, decide_eq_true_eq] at hwf
      have h8 : encVarint 8 = [8] := by rw [encVarint_eq]; norm_num
      have hrv : readVarintSafe data (o : Int) = some ((8 : Int), 1) := by
        have hs : SuffixAt data o (encVarint 8 ++ ((PbField.vint pre last).fieldBytes ++ rest)) := by
          rw [h8]
          simpa [PbField.wire] using hsuf
        have := readVarintSafe_encVarint hs (by norm_num)
        rwa [h8] at this
      have hsv : skipVarintSafe data ((o : Int) + 1) =
          ((o + 1 + (PbField.vint pre last).fieldBytes.length : Nat) : Int) := by
        have hs : SuffixAt data (o + 1) (pre ++ (last :: rest)) := by
          have := hsuf2
          simp only [PbField.fieldBytes] at this
          rwa [List.append_assoc, List.singleton_append] at this
        have hcast : ((o : Int) + 1) = ((o + 1 : Nat) : Int) := by push_cast; ring
        rw [hcast, skipVarintSafe_consume hwf.1 hwf.2 hs]
        simp only [PbField.fieldBytes, List.length_append, List.length_singleton]
        push_cast
        ring
      refine ⟨{ user with id := toString (8 : Int) }, ?_⟩
      simp only [userStep, userSwitch]
      rw [if_neg (by omega), if_neg (by omega), byteAt_suffixAt hsuf,
        tag_and7 _ _ (PbField.wire_lt8 _), tag_shr3 _ _ (PbField.wire_lt8 _),
        if_neg (by omega)]
      simp only [PbField.wire, if_pos, hom, hrv, hsv]
    | fix64 p =>
      refine ⟨user, ?_⟩
      simp only [userStep, userSwitch]
      rw [if_neg (by omega), if_neg (by omega), byteAt_suffixAt hsuf,
        tag_and7 _ _ (PbField.wire_lt8 _), tag_shr3 _ _ (PbField.wire_lt8 _),
        if_neg (by omega)]
      simp only [PbField.wire] at hskip
      simp only [PbField.wire, hom, hskip]
      push_cast
      norm_num
    | lenDelim c =>
      refine ⟨user, ?_⟩
      simp only [userStep, userSwitch]
      rw [if_neg (by omega), if_neg (by omega), byteAt_suffixAt hsuf,
        tag_and7 _ _ (PbField.wire_lt8 _), tag_shr3 _ _ (PbField.wire_lt8 _),
        if_neg (by omega)]
      simp only [PbField.wire] at hskip
      simp only [PbField.wire, hom, hskip]
      push_cast
      norm_num
    | fix32 p =>
      refine ⟨user, ?_⟩
      simp only [userStep, userSwitch]
      rw [if_neg (by omega), if_neg (by omega), byteAt_suffixAt hsuf,
        tag_and7 _ _ (PbField.wire_lt8 _), tag_shr3 _ _ (PbField.wire_lt8 _),
        if_neg (by omega)]
      simp only [PbField.wire] at hskip
      simp only [PbField.wire, hom, hskip]
      push_cast
      norm_num
  · by_cases hfn2 : fn = 2
    · subst hfn2
      cases f with
      | vint pre last =>
        refine ⟨user, ?_⟩
        simp only [userStep, userSwitch]
        rw [if_neg (by omega), if_neg (by omega), byteAt_suffixAt hsuf,
          tag_and7 _ _ (PbField.wire_lt8 _), tag_shr3 _ _ (PbField.wire_lt8 _),
          if_neg (by omega)]
        simp only [PbField.wire] at hskip
        simp only [PbField.wire, hom, hskip]
        push_cast
        norm_num
      | fix64 p =>
        refine ⟨user, ?_⟩
        simp only [userStep, userSwitch]
        rw [if_neg (by omega), if_neg (by omega), byteAt_suffixAt hsuf,
          tag_and7 _ _ (PbField.wire_lt8 _), tag_shr3 _ _ (PbField.wire_lt8 _),
          if_neg (by omega)]
        simp only [PbField.wire] at hskip
        simp only [PbField.wire, hom, hskip]
        push_cast
        norm_num
      | fix32 p =>
        refine ⟨user, ?_⟩
        simp only [userStep, userSwitch]
        rw [if_neg (by omega), if_neg (by omega), byteAt_suffixAt hsuf,
          tag_and7 _ _ (PbField.wire_lt8 _), tag_shr3 _ _ (PbField.wire_lt8 _),
          if_neg (by omega)]
        simp only [PbField.wire] at hskip
        simp only [PbField.wire, hom, hskip]
        push_cast
        norm_num
      | lenDelim c =>
        simp only [PbField.wfB, List.all_eq_true, Bool.and_eq_true,
          decide_eq_true_eq] at hwf
        have hsufv : SuffixAt data (o + 1) (encVarint c.length ++ (c ++ rest)) := by
          have := hsuf2
          simp only [PbField.fieldBytes] at this
          rwa [List.append_assoc] at this
        have hrv : readVarintSafe data ((o : Int) + 1) =
            some ((c.length : Int), (encVarint c.length).length) := by
          have hcast : ((o : Int) + 1) = ((o + 1 : Nat) : Int) := by push_cast; ring
          rw [hcast]
          exact readVarintSafe_encVarint hsufv (by
            calc c.length < 2 ^ 28 := hwf.1
              _ < 2 ^ 31 := by norm_num)
        have hsufc : SuffixAt data (o + 1 + (encVarint c.length).length) (c ++ rest) :=
          suffixAt_append hsufv
        have hslice : intSlice data ((o : Int) + 1 + ((encVarint c.length).length : Nat))
            ((o : Int) + 1 + ((encVarint c.length).length : Nat) + (c.length : Int)) = c := by
          have hcast : ((o : Int) + 1 + ((encVarint c.length).length : Nat)) =
              ((o + 1 + (encVarint c.length).length : Nat) : Int) := by push_cast; ring
          rw [hcast]
          exact intSlice_suffixAt hsufc
        by_cases hc : c = []
        · subst hc
          refine ⟨user, ?_⟩
          simp only [userStep, userSwitch]
          rw [if_neg (by omega), if_neg (by omega), byteAt_suffixAt hsuf,
            tag_and7 _ _ (PbField.wire_lt8 _), tag_shr3 _ _ (PbField.wire_lt8 _),
            if_neg (by omega)]
          simp only [PbField.wire, hrv]
          norm_num
          simp [PbField.fieldBytes]
        · have hclen : 0 < c.length := List.length_pos.mpr hc
          simp only [PbField.fieldBytes, List.length_append] at hlen
          refine ⟨{ user with name := decodeUtf8 c }, ?_⟩
          simp only [userStep, userSwitch]
          rw [if_neg (by omega), if_neg (by omega), byteAt_suffixAt hsuf,
            tag_and7 _ _ (PbField.wire_lt8 _), tag_shr3 _ _ (PbField.wire_lt8 _),
            if_neg (by omega)]
          simp only [PbField.wire]
          rw [if_neg (show ¬(2 : Nat) = 1 by norm_num)]
          norm_num
          simp only [hrv]
          rw [if_pos (show ((o : Int) + 1 + ((encVarint c.length).length : Nat) +
              ((c.length : Nat) : Int) ≤ ((data.length : Nat) : Int)) ∧
              ((0 : Int) < ((c.length : Nat) : Int)) from
            ⟨by omega, by omega⟩)]
          rw [hslice]
          have he : ((o : Int) + 1 + ((encVarint c.length).length : Nat) +
              ((c.length : Nat) : Int)) =
              ((o + 1 + ((encVarint c.length).length + c.length) : Nat) : Int) := by
            push_cast; ring
          rw [he]
          simp only [PbField.fieldBytes, List.length_append]
          push_cast
          rfl
    · by_cases hfn4 : fn = 4
      · subst hfn4
        cases f with
        | vint pre last =>
          refine ⟨user, ?_⟩
          simp only [userStep, userSwitch]
          rw [if_neg (by omega), if_neg (by omega), byteAt_suffixAt hsuf,
            tag_and7 _ _ (PbField.wire_lt8 _), tag_shr3 _ _ (PbField.wire_lt8 _),
            if_neg (by omega)]
          simp only [PbField.wire] at hskip
          simp only [PbField.wire, hom, hskip]
          push_cast
          norm_num
        | fix64 p =>
          refine ⟨user, ?_⟩
          simp only [userStep, userSwitch]
          rw [if_neg (by omega), if_neg (by omega), byteAt_suffixAt hsuf,
            tag_and7 _ _ (PbField.wire_lt8 _), tag_shr3 _ _ (PbField.wire_lt8 _),
            if_neg (by omega)]
          simp only [PbField.wire] at hskip
          simp only [PbField.wire, hom, hskip]
          push_cast
          norm_num
        | fix32 p =>
          refine ⟨user, ?_⟩
          simp only [userStep, userSwitch]
          rw [if_neg (by omega), if_neg (by omega), byteAt_suffixAt hsuf,
            tag_and7 _ _ (PbField.wire_lt8 _), tag_shr3 _ _ (PbField.wire_lt8 _),
            if_neg (by omega)]
          simp only [PbField.wire] at hskip
          simp only [PbField.wire, hom, hskip]
          push_cast
          norm_num
        | lenDelim c =>
          simp only [PbField.wfB, List.all_eq_true, Bool.and_eq_true,
            decide_eq_true_eq] at hwf
          have hsufv : SuffixAt data (o + 1) (encVarint c.length ++ (c ++ rest)) := by
            have := hsuf2
            simp only [PbField.fieldBytes] at this
            rwa [List.append_assoc] at this
          have hrv : readVarintSafe data ((o : Int) + 1) =
              some ((c.length : Int), (encVarint c.length).length) := by
            have hcast : ((o : Int) + 1) = ((o + 1 : Nat) : Int) := by push_cast; ring
            rw [hcast]
            exact readVarintSafe_encVarint hsufv (by
              calc c.length < 2 ^ 28 := hwf.1
                _ < 2 ^ 31 := by norm_num)
          have hsufc : SuffixAt data (o + 1 + (encVarint c.length).length) (c ++ rest) :=
            suffixAt_append hsufv
          have hslice : intSlice data ((o : Int) + 1 + ((encVarint c.length).length : Nat))
              ((o : Int) + 1 + ((encVarint c.length).length : Nat) + (c.length : Int)) = c := by
            have hcast : ((o : Int) + 1 + ((encVarint c.length).length : Nat)) =
                ((o + 1 + (encVarint c.length).length : Nat) : Int) := by push_cast; ring
            rw [hcast]
            exact intSlice_suffixAt hsufc
          by_cases hc : c = []
          · subst hc
            refine ⟨user, ?_⟩
            simp only [userStep, userSwitch]
            rw [if_neg (by omega), if_neg (by omega), byteAt_suffixAt hsuf,
              tag_and7 _ _ (PbField.wire_lt8 _), tag_shr3 _ _ (PbField.wire_lt8 _),
              if_neg (by omega)]
            simp only [PbField.wire, hrv]
            norm_num
            simp [PbField.fieldBytes]
          · have hclen : 0 < c.length := List.length_pos.mpr hc
            simp only [PbField.fieldBytes, List.length_append] at hlen
            refine ⟨{ user with displayName := decodeUtf8 c }, ?_⟩
            simp only [userStep, userSwitch]
            rw [if_neg (by omega), if_neg (by omega), byteAt_suffixAt hsuf,
              tag_and7 _ _ (PbField.wire_lt8 _), tag_shr3 _ _ (PbField.wire_lt8 _),
              if_neg (by omega)]
            simp only [PbField.wire]
            rw [if_neg (show ¬(4 : Nat) = 1 by norm_num)]
            rw [if_neg (show ¬(4 : Nat) = 2 by norm_num)]
            norm_num
            simp only [hrv]
            rw [if_pos (show ((o : Int) + 1 + ((encVarint c.length).length : Nat) +
                ((c.length : Nat) : Int) ≤ ((data.length : Nat) : Int)) ∧
                ((0 : Int) < ((c.length : Nat) : Int)) from
              ⟨by omega, by omega⟩)]
            rw [hslice]
            have he : ((o : Int) + 1 + ((encVarint c.length).length : Nat) +
                ((c.length : Nat) : Int)) =
                ((o + 1 + ((encVarint c.length).length + c.length) : Nat) : Int) := by
              push_cast; ring
            rw [he]
            simp only [PbField.fieldBytes, List.length_append]
            push_cast
            rfl
      · refine ⟨user, ?_⟩
        simp only [userStep, userSwitch]
        rw [if_neg (by omega), if_neg (by omega), byteAt_suffixAt hsuf,
          tag_and7 _ _ (PbField.wire_lt8 _), tag_shr3 _ _ (PbField.wire_lt8 _),
          if_neg (by omega)]
        rw [if_neg hfn1, if_neg hfn2, if_neg hfn4]
        rw [hom, hskip]
        rw [if_neg (show ¬(((o + 1 + f.fieldBytes.length : Nat) : Int) ≤ (o : Int) + 1) by
          push_cast; omega)]

lemma bodyEnc_cons (p : Nat × PbField) (rest : List (Nat × PbField)) :
    bodyEnc (p :: rest) = fieldEnc p ++ bodyEnc rest := by
  simp [bodyEnc]

lemma fieldEnc_length (p : Nat × PbField) :
    (fieldEnc p).length = 1 + p.2.fieldBytes.length := by
  simp [fieldEnc]
  omega

lemma userLoop_encBody :
    ∀ (body : List (Nat × PbField)) (data : Bytes) (o : Nat) (user : User) (fuel : Nat),
      BodyWf body = true →
      SuffixAt data o (bodyEnc body) →
      body.length < fuel →
      ∃ u, userLoop data fuel (o : Int) user = some u := by
  intro body
  induction body with
  | nil =>
    intro data o user fuel _ hsuf hfuel
    obtain ⟨k, rfl⟩ : ∃ k, fuel = k + 1 := ⟨fuel - 1, by omega⟩
    have ho : data.length = o := by
      have := hsuf.2; simp [bodyEnc] at this; omega
    refine ⟨user, ?_⟩
    simp only [userLoop]
    rw [userStep, if_pos (by omega)]
  | cons p rest ih =>
    intro data o user fuel hwf hsuf hfuel
    obtain ⟨fn, f⟩ := p
    simp only [BodyWf, List.all_cons, Bool.and_eq_true, decide_eq_true_eq] at hwf
    obtain ⟨⟨⟨hfn1, _⟩, hwfB⟩, hwfRest⟩ := hwf
    rw [bodyEnc_cons] at hsuf
    obtain ⟨k, rfl⟩ : ∃ k, fuel = k + 1 := ⟨fuel - 1, by omega⟩
    obtain ⟨u', hstep⟩ := userStep_consume user hfn1 hwfB hsuf
    simp only [userLoop]
    rw [hstep]
    by_cases hend : (data.length : Int) ≤ ((o + 1 + f.fieldBytes.length : Nat) : Int)
    · rw [if_pos hend]
      exact ⟨u', rfl⟩
    · rw [if_neg hend]
      have hsuf' : SuffixAt data (o + 1 + f.fieldBytes.length) (bodyEnc rest) := by
        have h2 := suffixAt_append hsuf
        rwa [fieldEnc_length, ← Nat.add_assoc] at h2
      have hfuel' : rest.length < k := by simp at hfuel; omega
      have hwfR : BodyWf rest = true := by
        simp only [BodyWf, List.all_eq_true]
        intro x hx
        have := List.all_eq_true.mp hwfRest x hx
        exact this
      exact ih data (o + 1 + f.fieldBytes.length) u' k hwfR hsuf' hfuel' 

lemma encRecordB_length (body : List (Nat × PbField)) :
    (encRecordB body).length =
      1 + (encVarint (bodyEnc body).length).length + (bodyEnc body).length := by
  simp [encRecordB]
  omega

lemma listStep_record {data : Bytes} {o : Nat} {body : List (Nat × PbField)}
    {rest : Bytes} (now : String) (userFuel : Nat) (users : List User)
    (hwf : BodyWf body = true) (hne : bodyEnc body ≠ [])
    (hsm : (bodyEnc body).length < 2 ^ 28) (hfuel : body.length < userFuel)
    (hsuf : SuffixAt data o (encRecordB body ++ rest)) :
    ∃ u, listStep now userFuel data (o : Int) users =
      .next (((o + (encRecordB body).length : Nat) : Int), users ++ [u]) := by
  have hB1 : 0 < (bodyEnc body).length := List.length_pos.mpr hne
  have hE1 := encVarint_length_pos (bodyEnc body).length
  rw [encRecordB] at hsuf
  simp only [List.cons_append] at hsuf
  have hlen : data.length =
      o + 1 + (encVarint (bodyEnc body).length).length + (bodyEnc body).length +
        rest.length := by
    have := hsuf.2
    simp at this
    omega
  have hsufv : SuffixAt data (o + 1)
      (encVarint (bodyEnc body).length ++ (bodyEnc body ++ rest)) := by
    have := suffixAt_tail hsuf
    rwa [List.append_assoc] at this
  have hrv : readVarintSafe data ((o : Int) + 1) =
      some (((bodyEnc body).length : Int), (encVarint (bodyEnc body).length).length) := by
    have hcast : ((o : Int) + 1) = ((o + 1 : Nat) : Int) := by push_cast; ring
    rw [hcast]
    exact readVarintSafe_encVarint hsufv (by
      calc (bodyEnc body).length < 2 ^ 28 := hsm
        _ < 2 ^ 31 := by norm_num)
  have hsufB : SuffixAt data (o + 1 + (encVarint (bodyEnc body).length).length)
      (bodyEnc body ++ rest) := suffixAt_append hsufv
  have hslice : intSlice data
      ((o : Int) + 1 + ((encVarint (bodyEnc body).length).length : Nat))
      ((o : Int) + 1 + ((encVarint (bodyEnc body).length).length : Nat) +
        ((bodyEnc body).length : Int)) = bodyEnc body := by
    have hcast : ((o : Int) + 1 + ((encVarint (bodyEnc body).length).length : Nat)) =
        ((o + 1 + (encVarint (bodyEnc body).length).length : Nat) : Int) := by
      push_cast; ring
    rw [hcast]
    exact intSlice_suffixAt hsufB
  have hsufB0 : SuffixAt (bodyEnc body) 0 (bodyEnc body) := ⟨rfl, by simp⟩
  obtain ⟨u, hu⟩ := userLoop_encBody body (bodyEnc body) 0 (initUser now) userFuel
    hwf hsufB0 hfuel
  refine ⟨u, ?_⟩
  simp only [listStep]
  rw [if_neg (by omega), if_neg (by omega), byteAt_suffixAt hsuf]
  rw [if_pos (by constructor <;> rfl)]
  rw [if_neg (by omega)]
  simp only [hrv]
  rw [if_neg (by omega)]
  rw [if_pos (by omega)]
  rw [hslice]
  have hu0 : manualParseUser now userFuel (bodyEnc body) = some u := by
    rw [manualParseUser]
    simpa using hu
  simp only [hu0]
  have he : ((o : Int) + 1 + ((encVarint (bodyEnc body).length).length : Nat) +
      ((bodyEnc body).length : Nat)) =
      ((o + (encRecordB body).length : Nat) : Int) := by
    rw [encRecordB_length]
    push_cast
    ring
  rw [he]

lemma listLoop_encRecords :
    ∀ (records : List (List (Nat × PbField))) (data : Bytes) (o : Nat)
      (users : List User) (fuel userFuel : Nat) (c : Nat) (now : String),
      (∀ b ∈ records, BodyWf b = true ∧ bodyEnc b ≠ [] ∧
        (bodyEnc b).length < 2 ^ 28 ∧ b.length < userFuel) →
      SuffixAt data o ((records.map encRecordB).flatten ++ [c]) →
      records.length < fuel →
      ∃ us, listLoop now userFuel data fuel (o : Int) users = some (users ++ us) ∧
        us.length = records.length := by
  intro records
  induction records with
  | nil =>
    intro data o users fuel userFuel c now _ hsuf hfuel
    obtain ⟨k, rfl⟩ : ∃ k, fuel = k + 1 := ⟨fuel - 1, by omega⟩
    simp only [List.map_nil, List.flatten_nil, List.nil_append] at hsuf
    have ho : data.length = o + 1 := by
      have := hsuf.2; simp at this; omega
    refine ⟨[], ?_, rfl⟩
    simp only [listLoop]
    rw [listStep, if_pos (by omega)]
    simp
  | cons b rs ih =>
    intro data o users fuel userFuel c now hwf hsuf hfuel
    obtain ⟨k, rfl⟩ : ∃ k, fuel = k + 1 := ⟨fuel - 1, by omega⟩
    simp only [List.map_cons, List.flatten_cons, List.append_assoc] at hsuf
    obtain ⟨hwfb, hneb, hsmb, hfb⟩ := hwf b (by simp)
    obtain ⟨u, hstep⟩ := listStep_record now userFuel users hwfb hneb hsmb hfb hsuf
    simp only [listLoop]
    simp only [hstep]
    have hsuf' : SuffixAt data (o + (encRecordB b).length)
        ((rs.map encRecordB).flatten ++ [c]) := by
      exact suffixAt_append hsuf
    obtain ⟨us, hloop, hcount⟩ := ih data (o + (encRecordB b).length) (users ++ [u])
      k userFuel c now (fun x hx => hwf x (by simp [hx])) hsuf' (by simp at hfuel; omega)
    refine ⟨u :: us, ?_, by simp [hcount]⟩
    rw [hloop]
    simp

lemma length_le_bodyEnc (body : List (Nat × PbField)) :
    body.length ≤ (bodyEnc body).length := by
  induction body with
  | nil => simp [bodyEnc]
  | cons p rest ih =>
    rw [bodyEnc_cons]
    simp only [List.length_cons, List.length_append]
    rw [fieldEnc_length]
    omega

lemma length_le_flatten_encRecordB (records : List (List (Nat × PbField))) :
    records.length ≤ ((records.map encRecordB).flatten).length := by
  induction records with
  | nil => simp
  | cons b rs ih =>
    simp only [List.map_cons, List.flatten_cons, List.length_cons, List.length_append]
    have := encRecordB_length b
    have := encVarint_length_pos (bodyEnc b).length
    omega

lemma member_encRecordB_length_le {records : List (List (Nat × PbField))}
    {b : List (Nat × PbField)} (hb : b ∈ records) :
    (encRecordB b).length ≤ ((records.map encRecordB).flatten).length := by
  induction records with
  | nil => simp at hb
  | cons x rs ih =>
    simp only [List.map_cons, List.flatten_cons, List.length_append]
    rcases List.mem_cons.mp hb with h | h
    · subst h; omega
    · have := ih h; omega

lemma userSwitch_setC (data : Bytes) (o : Int) (b : Nat) (u : User) (c : String) :
    userSwitch data o b { u with createdAt := c } =
      ((userSwitch data o b u).1, { (userSwitch data o b u).2 with createdAt := c }) := by
  simp only [userSwitch]
  repeat' split
  all_goals rfl

lemma userStep_setC (data : Bytes) (o : Int) (u : User) (c : String) :
    userStep data o { u with createdAt := c } =
      (match userStep data o u with
       | .done u' => .done { u' with createdAt := c }
       | .next s => .next (s.1, { s.2 with createdAt := c })) := by
  by_cases h1 : ¬o < (data.length : Int) - 1
  · simp only [userStep]
    rw [if_pos h1, if_pos h1]
  · by_cases h2 : o < 0 ∨ (data.length : Int) ≤ o
    · simp only [userStep]
      rw [if_neg h1, if_neg h1, if_pos h2, if_pos h2]
    · by_cases h3 : (data.length : Int) < o + 1
      · simp only [userStep]
        rw [if_neg h1, if_neg h1, if_neg h2, if_neg h2, if_pos h3, if_pos h3]
      · simp only [userStep]
        rw [if_neg h1, if_neg h1, if_neg h2, if_neg h2, if_neg h3, if_neg h3,
          userSwitch_setC]
        by_cases h4 : (data.length : Int) ≤ (userSwitch data (o + 1) (byteAt data o) u).1
        · rw [if_pos h4, if_pos h4]
        · rw [if_neg h4, if_neg h4]

lemma userLoop_setC (data : Bytes) (c : String) :
    ∀ (fuel : Nat) (o : Int) (u : User),
      userLoop data fuel o { u with createdAt := c } =
        (userLoop data fuel o u).map (fun r => { r with createdAt := c }) := by
  intro fuel
  induction fuel with
  | zero => intro o u; rfl
  | succ k ih =>
    intro o u
    simp only [userLoop, userStep_setC]
    cases h : userStep data o u with
    | done u' => simp
    | next s => simp [ih]

lemma manualParseUser_setC (now : String) (fuel : Nat) (data : Bytes) :
    manualParseUser now fuel data =
      (manualParseUser "" fuel data).map (fun r => { r with createdAt := now }) := by
  rw [manualParseUser, manualParseUser]
  have : initUser now = { initUser "" with createdAt := now } := rfl
  rw [this, userLoop_setC]

lemma listStep_now (now1 now2 : String) (uF : Nat) (data : Bytes) (o : Int)
    (us1 us2 : List User) (h : us1.map eraseCreatedAt = us2.map eraseCreatedAt) :
    (match listStep now1 uF data o us1, listStep now2 uF data o us2 with
     | .done r1, .done r2 =>
       r1.map (List.map eraseCreatedAt) = r2.map (List.map eraseCreatedAt)
     | .next s1, .next s2 =>
       s1.1 = s2.1 ∧ s1.2.map eraseCreatedAt = s2.2.map eraseCreatedAt
     | _, _ => False) := by
  by_cases h1 : ¬o < (data.length : Int) - 1
  · simp only [listStep]
    rw [if_pos h1, if_pos h1]
    simpa using h
  · by_cases h2 : o < 0 ∨ (data.length : Int) ≤ o
    · simp only [listStep]
      rw [if_neg h1, if_neg h1, if_pos h2, if_pos h2]
      simpa using h
    · by_cases h3 : byteAt data o >>> 3 = 1 ∧ byteAt data o &&& 7 = 2
      · simp only [listStep]
        rw [if_neg h1, if_neg h1, if_neg h2, if_neg h2, if_pos h3, if_pos h3]
        by_cases h4 : (data.length : Int) ≤ o + 1
        · rw [if_pos h4, if_pos h4]
          simpa using h
        · rw [if_neg h4, if_neg h4]
          cases hrv : readVarintSafe data (o + 1) with
          | none => dsimp only; simpa using h
          | some v =>
            obtain ⟨L, br⟩ := v
            dsimp only
            by_cases h5 : L ≤ 0 ∨ (data.length : Int) < L
            · rw [if_pos h5, if_pos h5]
              simpa using h
            · rw [if_neg h5, if_neg h5]
              by_cases h6 : o + 1 + (br : Int) + L ≤ (data.length : Int)
              · rw [if_pos h6, if_pos h6]
                rw [manualParseUser_setC now1, manualParseUser_setC now2]
                cases hbase : manualParseUser "" uF
                    (intSlice data (o + 1 + (br : Int)) (o + 1 + (br : Int) + L)) with
                | none => simp
                | some r0 =>
                  simp [eraseCreatedAt, h]
              · rw [if_neg h6, if_neg h6]
                simpa using h
      · simp only [listStep]
        rw [if_neg h1, if_neg h1, if_neg h2, if_neg h2, if_neg h3, if_neg h3]
        by_cases h7 : skipFieldSafe data o (byteAt data o &&& 7) ≤ o ∨
            (data.length : Int) ≤ skipFieldSafe data o (byteAt data o &&& 7)
        · rw [if_pos h7, if_pos h7]
          simpa using h
        · rw [if_neg h7, if_neg h7]
          exact ⟨rfl, h⟩

lemma listLoop_now (now1 now2 : String) (uF : Nat) (data : Bytes) :
    ∀ (fuel : Nat) (o : Int) (us1 us2 : List User),
      us1.map eraseCreatedAt = us2.map eraseCreatedAt →
      (listLoop now1 uF data fuel o us1).map (List.map eraseCreatedAt) =
        (listLoop now2 uF data fuel o us2).map (List.map eraseCreatedAt) := by
  intro fuel
  induction fuel with
  | zero => intro o us1 us2 h; rfl
  | succ k ih =>
    intro o us1 us2 h
    have hstep := listStep_now now1 now2 uF data o us1 us2 h
    simp only [listLoop]
    cases hs1 : listStep now1 uF data o us1 with
    | done r1 =>
      cases hs2 : listStep now2 uF data o us2 with
      | done r2 =>
        rw [hs1, hs2] at hstep
        exact hstep
      | next s2 =>
        rw [hs1, hs2] at hstep
        exact hstep.elim
    | next s1 =>
      cases hs2 : listStep now2 uF data o us2 with
      | done r2 =>
        rw [hs1, hs2] at hstep
        exact hstep.elim
      | next s2 =>
        rw [hs1, hs2] at hstep
        obtain ⟨he, hu⟩ := hstep
        dsimp only
        rw [he]
        exact ih s2.1 s1.2 s2.2 hu

lemma tag_decomp (b : Nat) : b = 8 * (b >>> 3) + (b &&& 7) := by
  rw [Nat.shiftRight_eq_div_pow]
  have h7 : (7 : Nat) = 2 ^ 3 - 1 := by norm_num
  rw [h7, Nat.and_pow_two_sub_one_eq_mod]
  omega

lemma readVarintSafe_byte8 {data : Bytes} {o : Int}
    (h0 : ¬(o < 0 ∨ (data.length : Int) ≤ o)) (hb : byteAt data o = 8) :
    readVarintSafe data o = some (8, 1) := by
  have hlt : o + ((0 : Nat) : Int) < (data.length : Int) := by push_cast; omega
  have hloop : readVarintLoop data o 5 0 0 0 = (8, 1) := by
    simp only [readVarintLoop]
    rw [if_pos hlt]
    have hc : o + ((0 : Nat) : Int) = o := by push_cast; ring
    rw [hc, hb]
    rw [show ((8 &&& 0x7F) <<< 0) % 2 ^ 32 = 8 from by decide]
    rw [show (8 &&& 0x80 : Nat) = 0 from by decide]
    simp
  rw [readVarintSafe, if_neg h0]
  simp only [hloop]
  norm_num [toSigned32]

lemma userSwitch_id (data : Bytes) (o : Int) (b : Nat) (u : User)
    (hb : byteAt data (o - 1) = b)
    (hin : ¬(o - 1 < 0 ∨ (data.length : Int) ≤ o - 1)) :
    (userSwitch data o b u).2.id = u.id ∨ (userSwitch data o b u).2.id = "8" := by
  by_cases hfn : b >>> 3 = 1
  · by_cases hwt : b &&& 7 = 0
    · have hb8 : b = 8 := by
        have := tag_decomp b
        omega
      subst hb8
      have hrv := readVarintSafe_byte8 hin hb
      right
      simp only [userSwitch, hfn, hwt, if_pos, hrv]
      rfl
    · left
      simp only [userSwitch, if_pos hfn, if_neg hwt]
  · left
    have : (userSwitch data o b u).2.id = u.id := by
      simp only [userSwitch, if_neg hfn]
      repeat' split
      all_goals rfl
    exact this

lemma userStep_id (data : Bytes) (o : Int) (u : User)
    (hu : u.id = "" ∨ u.id = "8") :
    (match userStep data o u with
     | .done u' => u'.id = "" ∨ u'.id = "8"
     | .next s => s.2.id = "" ∨ s.2.id = "8") := by
  by_cases h1 : ¬o < (data.length : Int) - 1
  · simp only [userStep]
    rw [if_pos h1]
    exact hu
  · by_cases h2 : o < 0 ∨ (data.length : Int) ≤ o
    · simp only [userStep]
      rw [if_neg h1, if_pos h2]
      exact hu
    · by_cases h3 : (data.length : Int) < o + 1
      · simp only [userStep]
        rw [if_neg h1, if_neg h2, if_pos h3]
        exact hu
      · have hb : byteAt data (o + 1 - 1) = byteAt data o := by
          have : o + 1 - 1 = o := by ring
          rw [this]
        have hin : ¬(o + 1 - 1 < 0 ∨ (data.length : Int) ≤ o + 1 - 1) := by
          omega
        have hid := userSwitch_id data (o + 1) (byteAt data o) u hb hin
        simp only [userStep]
        rw [if_neg h1, if_neg h2, if_neg h3]
        by_cases h4 : (data.length : Int) ≤ (userSwitch data (o + 1) (byteAt data o) u).1
        · rw [if_pos h4]
          dsimp only
          rcases hid with h | h
          · rw [h]
            exact hu
          · right
            exact h
        · rw [if_neg h4]
          dsimp only
          rcases hid with h | h
          · rw [h]
            exact hu
          · right
            exact h

lemma userLoop_id (data : Bytes) :
    ∀ (fuel : Nat) (o : Int) (u : User), (u.id = "" ∨ u.id = "8") →
      ∀ r, userLoop data fuel o u = some r → r.id = "" ∨ r.id = "8" := by
  intro fuel
  induction fuel with
  | zero => intro o u _ r h; cases h
  | succ k ih =>
    intro o u hu r h
    have hstep := userStep_id data o u hu
    simp only [userLoop] at h
    cases hs : userStep data o u with
    | done u' =>
      rw [hs] at h hstep
      cases h
      exact hstep
    | next s =>
      rw [hs] at h hstep
      exact ih s.1 s.2 hstep r h

/-- `C5`: the spec says the decoded identifier equals the encoded field-1
varint over the full 64-bit range.  In fact `manualParseUser` reads the id
varint at `offset - 1`, i.e. at the tag byte `0x08` itself, so every decoded
id is the string `"8"` (when field 1 occurs) or `""` (when it does not),
regardless of the encoded value: for `idOneBody = [0x08, 0x01]`, which encodes
identifier 1, the decoded id is `"8"`, not `"1"`. -/
theorem decoded_id_not_encoded_id :
    (manualParseUser "T" 4 idOneBody).map User.id = some "8" ∧
      ("8" : String) ≠ "1" :=
  ⟨by decide, by decide⟩

/-- `C5` (amended): (a) every record `manualParseUser` returns has id `""` or
`"8"` — the value of the encoded identifier never reaches the result, because
the varint is read at the tag byte's own offset; (b) the varint reader itself
(`readVarintSafe`) is exact on canonically encoded values below `2 ^ 31`
(beyond that the 32-bit accumulation and int32 reinterpretation are lossy, so
the full 64-bit range is not preserved even at the reader level). -/
theorem id_field_characterization :
    (∀ (now : String) (fuel : Nat) (data : Bytes) (r : User),
        manualParseUser now fuel data = some r → r.id = "" ∨ r.id = "8") ∧
    (∀ (n : Nat) (rest : Bytes), n < 2 ^ 31 →
        readVarintSafe (encVarint n ++ rest) 0 =
          some ((n : Int), (encVarint n).length)) := by
  constructor
  · intro now fuel data r h
    exact userLoop_id data fuel 0 (initUser now) (Or.inl rfl) r h
  · intro n rest hn
    have hsuf : SuffixAt (encVarint n ++ rest) 0 (encVarint n ++ rest) :=
      ⟨rfl, by simp⟩
    simpa using readVarintSafe_encVarint hsuf hn

theorem id_field_characterization_witness :
    (({ initUser "T" with id := "8" } : User).id = "" ∨
      ({ initUser "T" with id := "8" } : User).id = "8") ∧
    readVarintSafe (encVarint 300 ++ [0]) 0 =
      some ((300 : Int), (encVarint 300).length) :=
  ⟨id_field_characterization.1 "T" 4 idOneBody _ (by decide),
   id_field_characterization.2 300 [0] (by norm_num)⟩

lemma userStep_stall (u : User) : userStep stallBody 0 u = .next (0, u) := by
  have hb : byteAt stallBody 0 = 10 := by decide
  have hlen : ((stallBody.length : Int)) = 8 := by decide
  have hskip : skipFieldSafe stallBody 0 2 = 0 := by decide
  simp only [userStep, userSwitch, hb, hlen]
  rw [show (10 : Nat) >>> 3 = 1 from by decide]
  rw [show (10 : Nat) &&& 7 = 2 from by decide]
  norm_num
  rw [hskip]
  norm_num

lemma userLoop_stall (fuel : Nat) (u : User) :
    userLoop stallBody fuel 0 u = none := by
  induction fuel with
  | zero => rfl
  | succ k ih =>
    simp only [userLoop, userStep_stall]
    exact ih

/-- `C10`: refuted — the field-skipping helper does not always advance.  On
`stallBody`, whose length-delimited field declares the 5-byte varint length
`0xFA 0xFF 0xFF 0xFF 0x7F` (−6 as a 32-bit signed value), `skipFieldSafe`
returns offset 0 from offset 0, so `manualParseUser`'s loop revisits offset 0
forever and never terminates (`none` for every fuel). -/
theorem skipFieldSafe_stalls_and_user_loop_diverges :
    skipFieldSafe stallBody 0 2 = 0 ∧
    ∀ (now : String) (fuel : Nat), manualParseUser now fuel stallBody = none := by
  refine ⟨by decide, ?_⟩
  intro now fuel
  exact userLoop_stall fuel (initUser now)

/-- `C4`: refuted — the encoded field-3 timestamp never reaches the decoded
record.  `timestampBody` encodes field 3 as a nested message
`{seconds = 1, nanos = 2}`, yet the decoded `createdAt` is whatever
`new Date().toISOString()` returned at call time (the `now` parameter of the
embedding): two calls with different clocks give different timestamps for the
same buffer. -/
theorem createdAt_ignores_encoded_timestamp :
    (manualParseUser "A" 10 timestampBody).map User.createdAt = some "A" ∧
    (manualParseUser "B" 10 timestampBody).map User.createdAt = some "B" ∧
    ("A" : String) ≠ "B" :=
  ⟨by decide, by decide, by decide⟩

/-- `C4` (amended): every record `manualParseUser` returns carries
`createdAt = now`, the wall-clock string taken at call time; the encoded
contents of the buffer (including any field-3 nested timestamp) have no
influence on it. -/
theorem manualParseUser_createdAt_eq_now (now : String) (fuel : Nat)
    (data : Bytes) (r : User) (h : manualParseUser now fuel data = some r) :
    r.createdAt = now := by
  rw [manualParseUser_setC] at h
  cases hm : manualParseUser "" fuel data with
  | none => rw [hm] at h; cases h
  | some r0 =>
    rw [hm] at h
    simp only [Option.map_some', Option.some.injEq] at h
    rw [← h]

theorem manualParseUser_createdAt_eq_now_witness :
    (initUser "T").createdAt = "T" :=
  manualParseUser_createdAt_eq_now "T" 10 timestampBody _ (by decide)

/-- `C3`: refuted — the decode pipeline is not a pure function of the buffer:
it embeds the wall-clock string (`new Date().toISOString()`) into every
record's `createdAt`, so two invocations on the same 4-byte buffer at
different times produce different outputs. -/
theorem decodePipeline_now_dependent :
    decodePipeline "A" bufFour ≠ decodePipeline "B" bufFour := by
  decide

/-- `C3` (amended): the pipeline is deterministic in the buffer up to the
`createdAt` field: erasing `createdAt` from every decoded record makes the
output independent of the invocation time, so repeated calls agree on all
other fields. -/
theorem decodePipeline_pure_except_createdAt (now1 now2 : String)
    (data : Bytes) :
    (decodePipeline now1 data).map (List.map eraseCreatedAt) =
      (decodePipeline now2 data).map (List.map eraseCreatedAt) := by
  rw [decodePipeline, decodePipeline, manualParseListUsersResponse,
    manualParseListUsersResponse]
  exact listLoop_now now1 now2 _ _ _ _ [] [] rfl

lemma readVarintLoop_bytesRead_le :
    ∀ (budget : Nat) (data : Bytes) (o : Int) (br sh v : Nat),
      br ≤ (readVarintLoop data o budget br sh v).2 := by
  intro budget
  induction budget with
  | zero => intro data o br sh v; exact le_refl br
  | succ k ih =>
    intro data o br sh v
    simp only [readVarintLoop]
    by_cases h : o + (br : Int) < (data.length : Int)
    · rw [if_pos h]
      by_cases h2 : byteAt data (o + br) &&& 128 = 0
      · rw [if_pos h2]
        exact Nat.le_succ br
      · rw [if_neg h2]
        exact le_trans (Nat.le_succ br) (ih data o (br + 1) _ _)
    · rw [if_neg h]

lemma readVarintLoop_bytesRead_pos (budget : Nat) (data : Bytes) (o : Int)
    (br sh v : Nat) (h : o + (br : Int) < (data.length : Int)) :
    br + 1 ≤ (readVarintLoop data o (budget + 1) br sh v).2 := by
  simp only [readVarintLoop]
  rw [if_pos h]
  by_cases h2 : byteAt data (o + br) &&& 128 = 0
  · rw [if_pos h2]
  · rw [if_neg h2]
    exact readVarintLoop_bytesRead_le budget data o (br + 1) _ _

/-- `C6`: refuted — on a truncated varint the reader does return a partial
value.  `truncatedVarint` starts with five continuation bytes `0x80`; the
spec requires a TruncatedVarint failure, but `readVarintSafe` returns the
accumulated partial value `(0, 5)`. -/
theorem readVarintSafe_truncated_returns_partial :
    readVarintSafe truncatedVarint 0 = some (0, 5) := by
  decide

/-- `C6` (amended): `readVarintSafe` fails exactly when the offset is out of
bounds (negative or at/past the end of the buffer).  When the continuation
bit is still set after its 5-byte budget it does not fail: it returns the
partial accumulated value with `bytesRead = 5`. -/
theorem readVarintSafe_none_iff_out_of_bounds (data : Bytes) (o : Int) :
    readVarintSafe data o = none ↔ (o < 0 ∨ (data.length : Int) ≤ o) := by
  constructor
  · intro h
    by_contra hn
    rw [readVarintSafe, if_neg hn] at h
    have h1 := readVarintLoop_bytesRead_pos 4 data o 0 0 0 (by push_cast; omega)
    norm_num at h1
    rw [if_neg (by omega)] at h
    cases h
  · intro h
    rw [readVarintSafe, if_pos h]

/-- `C2`: refuted — a fallback attempt that yields zero records is still
reported as success.  On the 1-byte buffer `[0x00]` the first fallback method
("Direct manual parsing") finds 0 records, yet the loop stops and reports
`success := true` with `found := 0` instead of trying the next strategy. -/
theorem tryAlternative_zero_records_success :
    tryAlternativeParsingMethods "T" [0] =
      some { success := true, found := 0,
             method := "Direct manual parsing (no frame wrapper)" } := by
  decide

/-- `C2` (amended): the fallback loop accepts the FIRST method whose parse
does not throw, regardless of how many records it produced: if the buffer is
short (< 128), non-empty, carries none of the error-text markers, and direct
manual parsing returns `us`, the reported result is success with
`us.length` records — even when `us.length = 0`. -/
theorem tryAlternative_accepts_first_nonthrowing (now : String) (data : Bytes)
    (us : List User)
    (hlen : data.length < 128) (hne : ¬data.length = 0)
    (htext : (strContains (decodeUtf8 (data.take 200)) "grpc-status" ||
        strContains (decodeUtf8 (data.take 200)) "grpc-message") = false)
    (htext2 : (strContains (decodeUtf8 (data.take 200)) "HTTP/" ||
        strContains (decodeUtf8 (data.take 200)) "<html" ||
        strContains (decodeUtf8 (data.take 200)) "error") = false)
    (hp : manualParseListUsersResponse now data = some us) :
    tryAlternativeParsingMethods now data =
      some { success := true, found := us.length, method := methodName 0 } := by
  rw [tryAlternativeParsingMethods, if_neg (by omega)]
  dsimp only
  rw [htext, htext2]
  simp only [Bool.false_eq_true, if_false]
  simp only [methodsLoop, methodParse]
  rw [if_neg hne]
  rw [hp]
  simp only [wrapParse]

theorem tryAlternative_accepts_first_nonthrowing_witness :
    tryAlternativeParsingMethods "T" [0] =
      some { success := true, found := List.length ([] : List User),
             method := methodName 0 } :=
  tryAlternative_accepts_first_nonthrowing "T" [0] [] (by decide) (by decide)
    (by decide) (by decide) (by decide)

/-- `C7`: refuted — the extractor can use the declared length even when the
located trailer start does NOT lie beyond the declared end.  In
`bufTrailerAtStart` the trailer pattern sits at offset 5 (the very start of
the payload) and the header declares 50 bytes; the trailer-start branch is
skipped (it requires `5 < trailerStart`), the fallback `min(declaredEnd, len)`
fires, and the extractor returns the full 50 declared bytes — starting with
the trailer byte `0x80` itself — rather than an empty payload or the
`length − 30` margin fallback the spec describes. -/
theorem parseStandard_uses_declared_despite_trailer :
    findGrpcTrailerStart bufTrailerAtStart 5 = 5 ∧
    parseStandardGrpcWebFrame bufTrailerAtStart =
      0x80 :: List.replicate 49 0 := by
  constructor
  · decide
  · decide

/-- `C7` (amended): for a buffer of length ≥ 5 with nonzero declared length,
the payload end is the cascade `reconcileBoundary`: the declared end
`5 + declaredLength` when it is ≤ the buffer length, > 5 and strictly below
the located trailer start; otherwise the trailer start when it lies strictly
between 5 and the buffer length; otherwise `min(declaredEnd, bufferLength)`
— and a result ≤ 5 is replaced by `min(55, bufferLength)`, not by a
`bufferLength − margin` fallback. -/
theorem parseStandard_boundary_characterization (data : Bytes)
    (h5 : ¬data.length < 5) (hd : ¬beU32 data 1 = 0) :
    parseStandardGrpcWebFrame data =
      (data.drop 5).take
        (reconcileBoundary data.length (5 + beU32 data 1)
          (findGrpcTrailerStart data 5) - 5) := by
  simp only [parseStandardGrpcWebFrame, reconcileBoundary]
  rw [if_neg h5, if_neg hd]

theorem parseStandard_boundary_characterization_witness :
    parseStandardGrpcWebFrame bufTrailerAtStart =
      (bufTrailerAtStart.drop 5).take
        (reconcileBoundary bufTrailerAtStart.length
          (5 + beU32 bufTrailerAtStart 1)
          (findGrpcTrailerStart bufTrailerAtStart 5) - 5) :=
  parseStandard_boundary_characterization bufTrailerAtStart (by decide)
    (by decide)

/-- `C8`: refuted in part — short buffers are indeed decoded whole and without
frame parsing, but they do not always yield 0 records: the 4-byte buffer
`[0x0A, 0x02, 0x08, 0x01]` decodes to exactly one record. -/
theorem four_byte_buffer_decodes_record :
    (decodePipeline "T" bufFour).map List.length = some 1 := by
  decide

/-- `C8` (amended): a buffer shorter than 5 bytes is passed through the frame
extractor unchanged (the whole buffer is the payload), and the pipeline never
throws on it; buffers of length ≤ 1 decode to exactly 0 records, but longer
short buffers can decode to records (see the 4-byte counterexample). -/
theorem short_buffer_behavior :
    (∀ (data : Bytes), data.length < 5 → parseGrpcWebFrame data = data) ∧
    (∀ (now : String) (data : Bytes), data.length ≤ 1 →
        decodePipeline now data = some []) := by
  have hpass : ∀ (data : Bytes), data.length < 5 → parseGrpcWebFrame data = data := by
    intro data h
    rw [parseGrpcWebFrame]
    by_cases h0 : data.length = 0
    · rw [if_pos h0]
      exact (List.length_eq_zero.mp h0).symm
    · rw [if_neg h0, if_pos h]
  refine ⟨hpass, ?_⟩
  intro now data hlen
  rw [decodePipeline, hpass data (by omega), manualParseListUsersResponse]
  have hstep : listStep now (data.length + 2) data 0 [] = .done (some []) := by
    rw [listStep, if_pos (show ¬(0 : Int) < (data.length : Int) - 1 by omega)]
  show listLoop now (data.length + 2) data (data.length + 1 + 1) 0 [] = some []
  simp only [listLoop, hstep]

theorem short_buffer_behavior_witness :
    parseGrpcWebFrame bufFour = bufFour ∧ decodePipeline "T" [7] = some [] :=
  ⟨short_buffer_behavior.1 bufFour (by decide),
   short_buffer_behavior.2 "T" [7] (by decide)⟩

/-- `C9`: refuted for zero-length records — a payload holding one correctly
encoded but empty field-1 sub-message (`0x0A 0x00`) followed by a wire-type-7
corruption byte decodes to 0 records, not 1: a declared record length ≤ 0
makes the loop abort before the corruption byte is even reached. -/
theorem empty_record_dropped :
    manualParseListUsersResponse "T" (encListPayload [[]] 0x07) = some [] := by
  simp only [encListPayload, encRecordB, bodyEnc, encVarint, encVarintGo]
  decide

/-- `C9` (amended): for every payload of N correctly encoded NON-EMPTY
field-1 sub-messages (each body well-formed and shorter than `2 ^ 28`)
followed by one corruption byte, the decoder returns exactly N records: all
records before the corruption byte are kept, nothing after it becomes a
record. -/
theorem decode_list_counts_records (now : String)
    (records : List (List (Nat × PbField))) (c : Nat)
    (hwf : ∀ b ∈ records, BodyWf b = true ∧ bodyEnc b ≠ [] ∧
      (bodyEnc b).length < 2 ^ 28) :
    ∃ us, manualParseListUsersResponse now (encListPayload records c) = some us ∧
      us.length = records.length := by
  set data := encListPayload records c with hdata
  have hlen : data.length = ((records.map encRecordB).flatten).length + 1 := by
    simp [hdata, encListPayload]
  have hsuf : SuffixAt data 0 ((records.map encRecordB).flatten ++ [c]) := by
    constructor
    · simp [hdata, encListPayload]
    · simp [hdata, encListPayload]
  have hforall : ∀ b ∈ records, BodyWf b = true ∧ bodyEnc b ≠ [] ∧
      (bodyEnc b).length < 2 ^ 28 ∧ b.length < data.length + 2 := by
    intro b hb
    obtain ⟨h1, h2, h3⟩ := hwf b hb
    refine ⟨h1, h2, h3, ?_⟩
    have hb1 := length_le_bodyEnc b
    have hb2 : (bodyEnc b).length ≤ (encRecordB b).length := by
      rw [encRecordB_length]; omega
    have hb3 := member_encRecordB_length_le hb
    omega
  have hcount : records.length < data.length + 2 := by
    have := length_le_flatten_encRecordB records
    omega
  obtain ⟨us, hloop, hc⟩ := listLoop_encRecords records data 0 [] (data.length + 2)
    (data.length + 2) c now hforall hsuf hcount
  refine ⟨us, ?_, hc⟩
  rw [manualParseListUsersResponse]
  simpa using hloop

theorem decode_list_counts_records_witness :
    (∀ b ∈ witnessRecords, BodyWf b = true ∧ bodyEnc b ≠ [] ∧
      (bodyEnc b).length < 2 ^ 28) ∧
    ∃ us, manualParseListUsersResponse "T" (encListPayload witnessRecords 0x07) =
      some us ∧ us.length = 2 := by
  refine ⟨by decide, ?_⟩
  exact decode_list_counts_records "T" witnessRecords 0x07 (by decide)

/-- `C1`: the decode of Scenario A — header `[0,0,0,0,0x16]`, one record
encoding `{id: 1, name: "ana"}`, valid trailer — returns exactly one record
with `name = "ana"`, but its id is `"8"`, not the encoded `"1"`: the id
varint is read at `offset − 1`, which is the field-1 tag byte `0x08` itself
(the repository's own `test-exact-data.js` reads it at `offset`, confirming
the intended behaviour the spec describes). -/
theorem decodePipeline_scenarioA_eq :
    decodePipeline "T" bufScenarioA =
      some [{ initUser "T" with id := "8", name := "ana" }] := by
  decide
